import Mathlib

/-!
Shallow embedding of the OpenClowPyLite agent core (`agent.py`, `planner.py`):
the Model Gateway fallback chain, the turn executor, the step-journal stuck
detection, model-response normalization, verification and planner fallbacks,
the size-bounded session history, and JSON serialization of action lists.
External collaborators (the genai client, the browser, the filesystem) are
modelled as oracles/outcome lists; everything else is translated from the
source.
-/

set_option maxRecDepth 8000
set_option maxHeartbeats 1600000

namespace OpenClow

/-! ## Model Gateway (`Agent._call_gemini`, agent.py lines 123-150)

Each candidate model call either succeeds with a response or raises an
exception whose text is a string.  The gateway walks the candidate list,
classifying each failure by the substring markers below. -/

/-- Retryable-error markers from `agent.py` line 140: the error string is
lowercased and checked for each marker as a substring. -/
def retryableMarkers : List String :=
  ["429", "resource_exhausted", "quota", "exhausted", "500", "internal"]

/-- Python's `pat in hay` substring containment over character lists. -/
def containsSub : List Char → List Char → Bool
  | [], pat => pat.isEmpty
  | c :: t, pat => pat.isPrefixOf (c :: t) || containsSub t pat

/-- Substring-based retryability classifier: `any(x in str(e).lower() for x in [...])`.
The markers are ASCII, so `str.lower` is modelled by `Char.toLower` per character. -/
def isRetryable (err : String) : Bool :=
  retryableMarkers.any (fun m => containsSub (err.data.map Char.toLower) m.data)

/-- Outcome of attempting one candidate model: the call returns a response or
raises an exception with the given text. -/
inductive CallOutcome where
  | success (resp : String)
  | failure (err : String)
deriving DecidableEq, Repr

/-- Result of the gateway: a returned response, a re-raised exception, or the
generic `Exception("No models available to fulfill the request.")` raised when
the candidate list is empty and no error was recorded. -/
inductive GatewayResult where
  | ok (resp : String)
  | raised (err : String)
  | noModels
deriving DecidableEq, Repr

/-- Loop body of `Agent._call_gemini`: walks the candidates in order, keeping
`last_error`, the list of candidates actually tried, and the number of
`asyncio.sleep(1)` backoffs performed (one per retryable failure). -/
def callGeminiAux : List CallOutcome → Option String → List CallOutcome → Nat →
    GatewayResult × List CallOutcome × Nat
  | [], lastError, tried, sleeps =>
    (match lastError with
     | some e => GatewayResult.raised e
     | none => GatewayResult.noModels, tried, sleeps)
  | CallOutcome.success r :: _, _, tried, sleeps =>
    (GatewayResult.ok r, tried ++ [CallOutcome.success r], sleeps)
  | CallOutcome.failure e :: rest, _, tried, sleeps =>
    if isRetryable e then
      callGeminiAux rest (some e) (tried ++ [CallOutcome.failure e]) (sleeps + 1)
    else
      (GatewayResult.raised e, tried ++ [CallOutcome.failure e], sleeps)

/-- `Agent._call_gemini` over the effective candidate list, returning the
result together with the candidates tried (in order) and the backoff count. -/
def callGemini (outcomes : List CallOutcome) : GatewayResult × List CallOutcome × Nat :=
  callGeminiAux outcomes none [] 0

/-- A candidate outcome that is a retryable failure. -/
def retryableFailure (o : CallOutcome) : Prop :=
  ∃ e, o = CallOutcome.failure e ∧ isRetryable e = true

lemma callGeminiAux_skip_retryable (pre : List CallOutcome)
    (h : ∀ o ∈ pre, retryableFailure o) :
    ∀ rest lastError tried sleeps,
      callGeminiAux (pre ++ rest) lastError tried sleeps =
        callGeminiAux rest (pre.foldl (fun le o =>
            match o with
            | CallOutcome.failure e => some e
            | CallOutcome.success _ => le) lastError)
          (tried ++ pre) (sleeps + pre.length) := by
  induction pre with
  | nil => intro rest lastError tried sleeps; simp
  | cons o pre ih =>
    intro rest lastError tried sleeps
    obtain ⟨e, rfl, hr⟩ := h o (List.mem_cons_self o pre)
    have hpre : ∀ o ∈ pre, retryableFailure o := fun o ho => h o (List.mem_cons_of_mem _ ho)
    simp only [List.cons_append, callGeminiAux, hr, if_true, List.append_eq]
    rw [ih hpre]
    simp only [List.foldl_cons, List.append_assoc, List.singleton_append, List.length_cons]
    rw [show sleeps + 1 + pre.length = sleeps + (pre.length + 1) from by omega]

lemma callGeminiAux_tried_prefix (outcomes : List CallOutcome) :
    ∀ lastError tried sleeps,
      ∃ t, (callGeminiAux outcomes lastError tried sleeps).2.1 = tried ++ t ∧ t <+: outcomes := by
  induction outcomes with
  | nil => intro lastError tried sleeps; exact ⟨[], by simp [callGeminiAux], List.nil_prefix⟩
  | cons o rest ih =>
    intro lastError tried sleeps
    cases o with
    | success r =>
      refine ⟨[CallOutcome.success r], by simp [callGeminiAux], ?_⟩
      exact ⟨rest, by simp⟩
    | failure e =>
      by_cases hr : isRetryable e = true
      · obtain ⟨t, ht, hp⟩ := ih (some e) (tried ++ [CallOutcome.failure e]) (sleeps + 1)
        refine ⟨CallOutcome.failure e :: t, ?_, ?_⟩
        · simp [callGeminiAux, hr, ht]
        · exact (List.prefix_cons_inj _).mpr hp
      · have hr' : isRetryable e = false := by simpa using hr
        refine ⟨[CallOutcome.failure e], by simp [callGeminiAux, hr'], ?_⟩
        exact ⟨rest, by simp⟩

/-- C1: the Model Gateway tries candidates strictly in list order (the tried
set is always a prefix of the candidate list); after any run of retryable
failures (one fixed backoff each), the first succeeding candidate has its
response returned without trying later candidates; a fatal (non-retryable)
failure is propagated immediately without trying further candidates; and when
every candidate fails retryably the raised failure carries the last retryable
error. -/
theorem C1_gateway_fallback :
    (∀ outcomes : List CallOutcome, ∃ t, (callGemini outcomes).2.1 = t ∧ t <+: outcomes) ∧
    (∀ (pre : List CallOutcome) (r : String) (rest : List CallOutcome),
      (∀ o ∈ pre, retryableFailure o) →
      callGemini (pre ++ CallOutcome.success r :: rest) =
        (GatewayResult.ok r, pre ++ [CallOutcome.success r], pre.length)) ∧
    (∀ (pre : List CallOutcome) (e : String) (rest : List CallOutcome),
      (∀ o ∈ pre, retryableFailure o) → isRetryable e = false →
      callGemini (pre ++ CallOutcome.failure e :: rest) =
        (GatewayResult.raised e, pre ++ [CallOutcome.failure e], pre.length)) ∧
    (∀ (pre : List CallOutcome) (e : String),
      (∀ o ∈ pre, retryableFailure o) → isRetryable e = true →
      callGemini (pre ++ [CallOutcome.failure e]) =
        (GatewayResult.raised e, pre ++ [CallOutcome.failure e], pre.length + 1)) := by
  refine ⟨?_, ?_, ?_, ?_⟩
  · intro outcomes
    obtain ⟨t, ht, hp⟩ := callGeminiAux_tried_prefix outcomes none [] 0
    exact ⟨t, by simpa [callGemini] using ht, hp⟩
  · intro pre r rest h
    unfold callGemini
    rw [callGeminiAux_skip_retryable pre h]
    simp [callGeminiAux]
  · intro pre e rest h hf
    unfold callGemini
    rw [callGeminiAux_skip_retryable pre h]
    simp [callGeminiAux, hf]
  · intro pre e h hr
    unfold callGemini
    rw [callGeminiAux_skip_retryable pre h]
    simp [callGeminiAux, hr]

/-- Witness for C1 at a concrete candidate list: `A` fails with a 429, `B`
succeeds, `C` is never tried. -/
theorem C1_gateway_fallback_witness :
    callGemini [CallOutcome.failure "429 rate limited", CallOutcome.success "hello",
        CallOutcome.failure "boom"] =
      (GatewayResult.ok "hello",
       [CallOutcome.failure "429 rate limited", CallOutcome.success "hello"], 1) := by
  have h := C1_gateway_fallback.2.1 [CallOutcome.failure "429 rate limited"] "hello"
    [CallOutcome.failure "boom"]
    (by
      intro o ho
      simp only [List.mem_singleton] at ho
      exact ⟨"429 rate limited", ho, by decide⟩)
  simpa using h

/-! ## Turn Executor action loop (`Agent.analyze_and_act`, agent.py lines 629-711)

One parsed action per list element; the browser, the form-field reader and
`generate_image` are oracles supplied in `BrowserEnv`. -/

/-- One ActionCommand as used by the action loop: the fields the loop reads.
`coordinates` is the optional JSON list from the model. -/
structure ActionCommand where
  action : String
  text : String
  coordinates : Option (List Int)
  key : String
  reasoning : String
deriving DecidableEq, Repr

/-- Oracles for the browser collaborator and `generate_image`. -/
structure BrowserEnv where
  pageText : String
  formFields : String
  genImage : String → String

/-- `answer`, `done` and `generate_image` set `is_done = True` and `break`. -/
def isTerminalAction (a : ActionCommand) : Bool :=
  a.action == "generate_image" || a.action == "answer" || a.action == "done"

/-- Result of one turn's action loop: `final_result`, `is_done`, and the list
of actions that were actually executed, in order. -/
structure TurnExec where
  finalResult : String
  isDone : Bool
  executed : List ActionCommand
deriving DecidableEq, Repr

/-- Effect of a non-terminal action on `final_result`: `read` and
`inspect_form` overwrite it, everything else leaves it unchanged. -/
def nonTerminalResult (env : BrowserEnv) (res : String) (a : ActionCommand) : String :=
  if a.action = "inspect_form" then "Form fields: " ++ env.formFields
  else if a.action = "read" then
    (if env.pageText = "" then "No text found." else env.pageText.take 2000)
  else res

/-- The action loop of `analyze_and_act`: starts with
`final_result = "Processing..."`, executes actions in list order, and stops
(with `is_done = True`) at the first terminal action.  `done` with empty text
yields `"Task completed."` (`text or "Task completed."`). -/
def execActionsFrom (env : BrowserEnv) :
    List ActionCommand → String → List ActionCommand → TurnExec
  | [], res, ex => ⟨res, false, ex⟩
  | a :: rest, res, ex =>
    if a.action = "generate_image" then ⟨env.genImage a.text, true, ex ++ [a]⟩
    else if a.action = "answer" then ⟨a.text, true, ex ++ [a]⟩
    else if a.action = "done" then
      ⟨if a.text = "" then "Task completed." else a.text, true, ex ++ [a]⟩
    else execActionsFrom env rest (nonTerminalResult env res a) (ex ++ [a])

/-- The whole per-turn execution of a parsed action list. -/
def execActions (env : BrowserEnv) (actions : List ActionCommand) : TurnExec :=
  execActionsFrom env actions "Processing..." []

/-- The result produced by the first terminal action, as the source computes
it: `generate_image` yields the image-generation result for its text,
`answer` yields its text, `done` yields its text or `"Task completed."` when
the text is empty. -/
def terminalResult (env : BrowserEnv) (a : ActionCommand) : String :=
  if a.action = "generate_image" then env.genImage a.text
  else if a.action = "answer" then a.text
  else if a.text = "" then "Task completed." else a.text

lemma execActionsFrom_skip_nonterminal (env : BrowserEnv) (pre : List ActionCommand)
    (h : ∀ b ∈ pre, isTerminalAction b = false) :
    ∀ rest res ex, execActionsFrom env (pre ++ rest) res ex =
      execActionsFrom env rest (pre.foldl (nonTerminalResult env) res) (ex ++ pre) := by
  induction pre with
  | nil => intro rest res ex; simp
  | cons b pre ih =>
    intro rest res ex
    have hb := h b (List.mem_cons_self b pre)
    simp only [isTerminalAction, Bool.or_eq_false_iff, beq_eq_false_iff_ne, ne_eq] at hb
    obtain ⟨⟨h1, h2⟩, h3⟩ := hb
    have hpre : ∀ o ∈ pre, isTerminalAction o = false := fun o ho => h o (List.mem_cons_of_mem _ ho)
    simp only [List.cons_append, execActionsFrom, if_neg h1, if_neg h2, if_neg h3,
      List.append_eq]
    rw [ih hpre]
    simp [List.foldl_cons, List.append_assoc]

/-- C2 (amended): the Turn Executor runs the parsed actions strictly in list
order, stops at the first terminal action (`answer`, `done`,
`generate_image`) — actions after it are never executed — reports the turn
done, and the turn's result is the terminal action's result per
`terminalResult` (the action's text for `answer` and for `done` with
non-empty text; `"Task completed."` for `done` with empty text; the
image-generation output for `generate_image`). -/
theorem C2_terminal_execution (env : BrowserEnv) (pre : List ActionCommand)
    (a : ActionCommand) (post : List ActionCommand)
    (hpre : ∀ b ∈ pre, isTerminalAction b = false)
    (ha : isTerminalAction a = true) :
    execActions env (pre ++ a :: post) = ⟨terminalResult env a, true, pre ++ [a]⟩ := by
  unfold execActions
  rw [execActionsFrom_skip_nonterminal env pre hpre]
  simp only [isTerminalAction, Bool.or_eq_true, beq_iff_eq] at ha
  rcases ha with (hg | hA) | hd
  · simp [execActionsFrom, terminalResult, hg]
  · by_cases hg : a.action = "generate_image"
    · simp [execActionsFrom, terminalResult, hg]
    · simp [execActionsFrom, terminalResult, hg, hA]
  · by_cases hg : a.action = "generate_image"
    · simp [execActionsFrom, terminalResult, hg]
    · by_cases hA : a.action = "answer"
      · simp [execActionsFrom, terminalResult, hg, hA]
      · simp [execActionsFrom, terminalResult, hg, hA, hd]

/-- Concrete inputs for settling C2. -/
def doneEmptyAction : ActionCommand :=
  { action := "done", text := "", coordinates := none, key := "", reasoning := "" }

/-- A browser environment with empty oracles. -/
def plainEnv : BrowserEnv := { pageText := "", formFields := "", genImage := fun _ => "" }

/-- C2 counterexample to the claim as stated: a turn whose single action is
`done` with empty text stops and reports done, but the turn's result is
`"Task completed."`, not the terminal action's (empty) text. -/
theorem C2_counterexample :
    isTerminalAction doneEmptyAction = true ∧
    (execActions plainEnv [doneEmptyAction]).isDone = true ∧
    (execActions plainEnv [doneEmptyAction]).executed = [doneEmptyAction] ∧
    (execActions plainEnv [doneEmptyAction]).finalResult = "Task completed." ∧
    (execActions plainEnv [doneEmptyAction]).finalResult ≠ doneEmptyAction.text := by
  refine ⟨rfl, rfl, rfl, rfl, ?_⟩
  decide

/-- Concrete non-terminal action for the C2 witness. -/
def clickAction : ActionCommand :=
  { action := "click", text := "", coordinates := some [10, 20], key := "", reasoning := "" }

/-- Concrete terminal action for the C2 witness. -/
def answerAction : ActionCommand :=
  { action := "answer", text := "42", coordinates := none, key := "", reasoning := "" }

/-- Concrete trailing action for the C2 witness (never executed). -/
def readAction : ActionCommand :=
  { action := "read", text := "", coordinates := none, key := "", reasoning := "" }

/-- Witness for C2 at a concrete action list: `click` then `answer "42"` then
`read`; execution stops at `answer`, the result is `"42"`, `read` is never
executed. -/
theorem C2_terminal_execution_witness :
    execActions plainEnv [clickAction, answerAction, readAction] =
      { finalResult := "42", isDone := true, executed := [clickAction, answerAction] } := by
  have h := C2_terminal_execution plainEnv [clickAction] answerAction [readAction]
    (by
      intro b hb
      simp only [List.mem_singleton] at hb
      subst hb
      rfl)
    (by rfl)
  simpa [terminalResult, answerAction] using h

/-! ## Step journal, stuck detection and hard bailout
(`Agent.analyze_and_act`, agent.py lines 520-565 and 713-750) -/

/-- One StepRecord of the per-task step journal. -/
structure StepRecord where
  turn : Nat
  actions : List ActionCommand
  pageText : String
  url : String
deriving DecidableEq, Repr

/-- Recording this turn into the journal (lines 726-735): the record is
appended with `turn = len(self._task_steps) + 1` and the post-action URL. -/
def recordTurn (prior : List StepRecord) (actions : List ActionCommand)
    (pageSnippet currentUrl : String) : List StepRecord :=
  prior ++ [{ turn := prior.length + 1, actions := actions,
              pageText := pageSnippet, url := currentUrl }]

/-- `sum(1 for s in self._task_steps if s.get("url") == current_url)` (line 740). -/
def urlTotalCount (steps : List StepRecord) (url : String) : Nat :=
  (steps.filter (fun s => s.url == url)).length

/-- The bailout message of lines 742-748. -/
def bailMessage (url : String) (count total : Nat) : String :=
  "🛑 I've been stuck on '" ++ url ++ "' for " ++ Nat.repr count ++
  " turns (out of " ++ Nat.repr total ++ " total). " ++
  "My actions are having no lasting effect on the page. " ++
  "Possible causes: wrong credentials, a CAPTCHA, JavaScript blocking input, or a page error. " ++
  "Please check the page and try again."

/-- Lines 726-750: the turn's record is appended, then — only when the turn is
not already done and the current URL is non-empty — the total occurrence count
of the current URL is checked against the hard ceiling of 4; on reaching it
the turn returns the bailout message with `is_done = True`, otherwise it
returns the turn's own result. -/
def postTurnOutcome (prior : List StepRecord) (turnResult : String) (isDone : Bool)
    (actions : List ActionCommand) (pageSnippet currentUrl : String) : String × Bool :=
  let steps := recordTurn prior actions pageSnippet currentUrl
  if isDone = false ∧ currentUrl ≠ "" ∧ 4 ≤ urlTotalCount steps currentUrl then
    (bailMessage currentUrl (urlTotalCount steps currentUrl) steps.length, true)
  else (turnResult, isDone)

/-- C3 (amended): whenever a non-terminal turn records a non-empty current URL
whose total occurrence count in the journal reaches 4 or more — consecutive or
not — the turn ends the Task with the bailout message (naming the URL, its
occurrence count and the total turn count) and the done flag set; a turn that
already ended with a terminal action returns its own result instead. -/
theorem C3_hard_bailout (prior : List StepRecord) (turnResult : String)
    (actions : List ActionCommand) (pageSnippet currentUrl : String)
    (hurl : currentUrl ≠ "")
    (hcount : 4 ≤ urlTotalCount (recordTurn prior actions pageSnippet currentUrl) currentUrl) :
    postTurnOutcome prior turnResult false actions pageSnippet currentUrl =
      (bailMessage currentUrl
        (urlTotalCount (recordTurn prior actions pageSnippet currentUrl) currentUrl)
        (prior.length + 1), true) := by
  unfold postTurnOutcome
  rw [if_pos ⟨rfl, hurl, hcount⟩]
  simp [recordTurn]

/-- A journal record on the repeated URL, for settling C3. -/
def stuckRecord (n : Nat) : StepRecord :=
  { turn := n, actions := [], pageText := "", url := "https://x" }

/-- Three prior turns on the same URL, for settling C3. -/
def stuckPriorSteps : List StepRecord := [stuckRecord 1, stuckRecord 2, stuckRecord 3]

/-- C3 counterexample to the claim as stated: a turn that produces the 4th
total occurrence of its URL but already ended with a terminal action
(`is_done = True`) returns the turn's own result, not a bailout message —
the bailout check is guarded by `not is_done`. -/
theorem C3_counterexample :
    urlTotalCount (recordTurn stuckPriorSteps [] "" "https://x") "https://x" = 4 ∧
    postTurnOutcome stuckPriorSteps "done result" true [] "" "https://x" =
      ("done result", true) ∧
    "done result" ≠ bailMessage "https://x" 4 4 := by
  refine ⟨by decide, by decide, by decide⟩

/-- Witness for C3 at a concrete journal: the 4th occurrence of
`https://x` on a non-terminal turn bails out. -/
theorem C3_hard_bailout_witness :
    postTurnOutcome stuckPriorSteps "Processing..." false [] "" "https://x" =
      (bailMessage "https://x" 4 4, true) := by
  have h := C3_hard_bailout stuckPriorSteps "Processing..." [] "" "https://x"
    (by decide) (by decide)
  exact h.trans (by decide)

/-! ## Consecutive-URL stuck detection and re-planning trigger
(agent.py lines 523-565) -/

/-- Python `recent_urls = [s.get("url","") for s in self._task_steps[-6:]]`. -/
def last6 (l : List String) : List String := l.drop (l.length - 6)

/-- Trailing count of consecutive URLs equal to the most recent one
(lines 538-543): starts at 1 and walks backwards until a mismatch. -/
def urlStuckCount (urls : List String) : Nat :=
  match urls.reverse with
  | [] => 1
  | lastU :: revPrev => 1 + (revPrev.takeWhile (fun u => u == lastU)).length

/-- `recent_urls[-1]`. -/
def lastUrl (urls : List String) : String := urls.getLast?.getD ""

/-- Python `str` of the recorded coordinates value (`None` or a list). -/
def coordsRepr : Option (List Int) → String
  | none => "None"
  | some xs => "[" ++ String.intercalate ", " (xs.map (fun i => Int.repr i)) ++ "]"

/-- One action summary inside a journal line (line 527):
`action(text[:30] or coordinates)`. -/
def actionSummary (a : ActionCommand) : String :=
  a.action ++ "(" ++
    (if a.text.take 30 = "" then coordsRepr a.coordinates else a.text.take 30) ++ ")"

/-- One journal step line (line 530). -/
def stepLine (s : StepRecord) : String :=
  "  Turn " ++ Nat.repr s.turn ++ ": [URL: " ++ s.url ++ "] " ++
    String.intercalate ", " (s.actions.map actionSummary)

/-- The optional page-snippet line (line 532). -/
def snippetLine (s : StepRecord) : String :=
  "    → Page snippet: " ++ s.pageText.take 150

/-- Fixed head of the stuck alert, up to the URL. -/
def stuckAlertHead : String :=
  "\n  ⛔ CRITICAL STUCK ALERT: The page URL has been '"

/-- Remainder of the stuck alert after the URL (lines 548-556). -/
def stuckAlertTail (cnt : Nat) : String :=
  "' for " ++ Nat.repr cnt ++
  " consecutive turns. YOUR ACTIONS ARE HAVING NO EFFECT ON THE PAGE. " ++
  "You MUST abandon the current approach and try something completely different:\n" ++
  "  1. Try using browser's built-in form fill: use 'navigate' to the page URL again (hard refresh).\n" ++
  "  2. After reload: click directly on input fields using fresh coordinates (try center of viewport).\n" ++
  "  3. Submit using Tab key to move between fields, then Enter to submit.\n" ++
  "  4. If still stuck, use 'read' to extract the page text and check for error messages.\n" ++
  "  NEVER repeat the same click+type+click+type+key sequence the same way again."

/-- The full stuck-alert instruction injected into the journal block. -/
def stuckAlert (url : String) (cnt : Nat) : String :=
  stuckAlertHead ++ url ++ stuckAlertTail cnt

/-- The journal block of the perception payload (lines 523-565): a header, one
line per step (plus optional page snippet), and — when the trailing run of
identical URLs in the last-6 window reaches 3 — the stuck alert. -/
def journalLines (steps : List StepRecord) : List String :=
  let base := "\nCURRENT TASK PROGRESS (your step-by-step actions so far for THIS task):" ::
    steps.flatMap (fun s => stepLine s :: (if s.pageText = "" then [] else [snippetLine s]))
  let urls := last6 (steps.map (fun s => s.url))
  if 3 ≤ urlStuckCount urls then base ++ [stuckAlert (lastUrl urls) (urlStuckCount urls)]
  else base

/-- The journal block as it appears in the perception payload: absent when the
journal is empty (`if self._task_steps:`). -/
def perceptionJournal (steps : List StepRecord) : List String :=
  if steps.isEmpty then [] else journalLines steps

/-- A triggered `Planner.update_plan` call (step count and feedback). -/
structure PlanUpdateCall where
  stepCount : Nat
  feedback : String
deriving DecidableEq, Repr

/-- The stuck feedback string of line 560. -/
def stuckFeedback (url : String) (cnt : Nat) : String :=
  "Stuck on URL " ++ url ++ " for " ++ Nat.repr cnt ++ " turns."

/-- The `update_plan` calls triggered by stuck detection (lines 558-563): one
call when the journal is non-empty, the trailing URL run reaches 3, and a
plan is currently active (`if self.current_plan:`); none otherwise. -/
def stuckPlanUpdates (steps : List StepRecord) (hasPlan : Bool) : List PlanUpdateCall :=
  let urls := last6 (steps.map (fun s => s.url))
  if steps ≠ [] ∧ 3 ≤ urlStuckCount urls ∧ hasPlan = true then
    [{ stepCount := steps.length,
       feedback := stuckFeedback (lastUrl urls) (urlStuckCount urls) }]
  else []

lemma last6_append_three (zs : List String) (u : String) :
    last6 (zs ++ [u, u, u]) = zs.drop (zs.length + 3 - 6) ++ [u, u, u] := by
  unfold last6
  rw [List.length_append, List.drop_append_eq_append_drop]
  have h2 : zs.length + [u, u, u].length - 6 - zs.length = 0 := by
    simp only [List.length_cons, List.length_nil]
    omega
  rw [h2]
  simp

lemma urlStuckCount_three (ws : List String) (u : String) :
    3 ≤ urlStuckCount (ws ++ [u, u, u]) := by
  unfold urlStuckCount
  have : (ws ++ [u, u, u]).reverse = u :: u :: u :: ws.reverse := by simp
  rw [this]
  simp [List.takeWhile_cons]
  omega

lemma lastUrl_append_three (ws : List String) (u : String) :
    lastUrl (ws ++ [u, u, u]) = u := by
  unfold lastUrl
  have : ws ++ [u, u, u] = (ws ++ [u, u]) ++ [u] := by simp
  rw [this, List.getLast?_concat]
  rfl

/-- C4 (amended): whenever the same URL is the current URL of the last 3 or
more consecutive StepRecords, the journal block of the next perception payload
contains the stuck-alert instruction, that instruction names the repeated URL,
and — when a Plan is currently active — exactly one Planner `update_plan` call
is triggered with the stuck feedback (no call is made when no plan is
active). -/
theorem C4_stuck_alert (steps : List StepRecord) (zs : List String) (u : String)
    (hasPlan : Bool) (_hu : u ≠ "")
    (hmap : steps.map (fun s => s.url) = zs ++ [u, u, u]) :
    3 ≤ urlStuckCount (last6 (steps.map (fun s => s.url))) ∧
    stuckAlert u (urlStuckCount (last6 (steps.map (fun s => s.url)))) ∈
      perceptionJournal steps ∧
    (∃ p q, stuckAlert u (urlStuckCount (last6 (steps.map (fun s => s.url)))) =
      p ++ (u ++ q)) ∧
    (hasPlan = true → stuckPlanUpdates steps hasPlan =
      [{ stepCount := steps.length,
         feedback := stuckFeedback u (urlStuckCount (last6 (steps.map (fun s => s.url)))) }]) := by
  have hne : steps ≠ [] := by
    intro h
    rw [h] at hmap
    simp at hmap
  have hurls : last6 (steps.map (fun s => s.url)) =
      zs.drop (zs.length + 3 - 6) ++ [u, u, u] := by
    rw [hmap, last6_append_three]
  have hstuck : 3 ≤ urlStuckCount (last6 (steps.map (fun s => s.url))) := by
    rw [hurls]; exact urlStuckCount_three _ u
  have hlast : lastUrl (last6 (steps.map (fun s => s.url))) = u := by
    rw [hurls]; exact lastUrl_append_three _ u
  refine ⟨hstuck, ?_, ?_, ?_⟩
  · unfold perceptionJournal journalLines
    rw [if_neg (by simpa [List.isEmpty_iff] using hne)]
    simp only
    rw [if_pos hstuck, hlast]
    exact List.mem_append_right _ (List.mem_singleton.mpr rfl)
  · exact ⟨stuckAlertHead,
      stuckAlertTail (urlStuckCount (last6 (steps.map (fun s => s.url)))),
      by unfold stuckAlert; rw [String.append_assoc]⟩
  · intro hp
    unfold stuckPlanUpdates
    rw [if_pos ⟨hne, hstuck, hp⟩, hlast]

/-- A journal record for settling C4. -/
def stuckRecordY (n : Nat) : StepRecord :=
  { turn := n, actions := [], pageText := "", url := "https://y" }

/-- Three consecutive turns on the same URL, for settling C4. -/
def stuckStepsY : List StepRecord := [stuckRecordY 1, stuckRecordY 2, stuckRecordY 3]

/-- C4 counterexample to the claim as stated: with the same non-empty URL
current for the last 3 consecutive StepRecords but no active Plan, no
`update_plan` call is triggered (the call is guarded by
`if self.current_plan:`), contradicting the claim's unconditional "one Planner
updatePlan call is triggered". -/
theorem C4_counterexample :
    stuckStepsY.map (fun s => s.url) = ["https://y", "https://y", "https://y"] ∧
    "https://y" ≠ "" ∧
    3 ≤ urlStuckCount (last6 (stuckStepsY.map (fun s => s.url))) ∧
    stuckPlanUpdates stuckStepsY false = [] := by
  refine ⟨by decide, by decide, by decide, by decide⟩

/-- Witness for C4 at a concrete stuck journal with an active plan. -/
theorem C4_stuck_alert_witness :
    stuckAlert "https://y" 3 ∈ perceptionJournal stuckStepsY ∧
    stuckPlanUpdates stuckStepsY true =
      [{ stepCount := 3, feedback := stuckFeedback "https://y" 3 }] := by
  obtain ⟨h1, h2, h3, h4⟩ := C4_stuck_alert stuckStepsY [] "https://y" true
    (by decide) (by decide)
  have hc : urlStuckCount (last6 (stuckStepsY.map (fun s => s.url))) = 3 := by decide
  rw [hc] at h2 h4
  exact ⟨h2, by simpa using h4 rfl⟩

/-! ## JSON values

Python objects produced by `json.loads`: dicts, lists, strings, ints,
booleans and `None`.  Numbers are restricted to integers (the action payloads
in this system carry only ints and strings). -/

/-- A Python JSON value. -/
inductive PyJson where
  | null
  | bool (b : Bool)
  | int (n : Int)
  | str (s : String)
  | arr (xs : List PyJson)
  | obj (fields : List (String × PyJson))

/-- Python `j.get(k)` on a dict value (`None`-defaulting lookup); `none` for
non-dicts. -/
def jGet (j : PyJson) (k : String) : Option PyJson :=
  match j with
  | PyJson.obj fields => fields.lookup k
  | _ => none

/-! ## Model-response normalization (`Agent.analyze_and_act`, agent.py
lines 608-627) -/

/-- The model's textual response after `json.loads`: either it failed to
decode (`json.JSONDecodeError`) or it produced a JSON value. -/
inductive ModelResponse where
  | undecodable (raw : String)
  | decoded (j : PyJson)

/-- Scalar JSON values: neither a dict nor a list. -/
def scalarJson : PyJson → Bool
  | PyJson.null => true
  | PyJson.bool _ => true
  | PyJson.int _ => true
  | PyJson.str _ => true
  | PyJson.arr _ => false
  | PyJson.obj _ => false

/-- Lines 611-627: a dict with an `actions` list normalizes to that list; any
other dict becomes a one-element list; a top-level list is used directly; a
scalar is the "not a valid action array or object" error; undecodable text is
the "invalid JSON" error.  Both error returns carry `is_done = False`. -/
def normalizeResponse : ModelResponse → Except (String × Bool) (List PyJson)
  | ModelResponse.undecodable raw =>
    Except.error ("Error: Gemini returned invalid JSON: " ++ raw, false)
  | ModelResponse.decoded j =>
    match j with
    | PyJson.obj fields =>
      match fields.lookup "actions" with
      | some (PyJson.arr xs) => Except.ok xs
      | _ => Except.ok [PyJson.obj fields]
    | PyJson.arr xs => Except.ok xs
    | _ => Except.error ("Error: Gemini did not return a valid action array or object.", false)

/-- C5 (amended): an object with an `actions` list normalizes to that list; an
object without one normalizes to the one-element list of itself; a top-level
JSON array is also accepted and normalizes to itself (it is not a parse
failure); only a scalar JSON value or undecodable text is a hard parse
failure, and both failures report an error with the is-done flag false. -/
theorem C5_normalization :
    (∀ (fields : List (String × PyJson)) (xs : List PyJson),
      fields.lookup "actions" = some (PyJson.arr xs) →
      normalizeResponse (ModelResponse.decoded (PyJson.obj fields)) = Except.ok xs) ∧
    (∀ fields : List (String × PyJson),
      (∀ xs, fields.lookup "actions" ≠ some (PyJson.arr xs)) →
      normalizeResponse (ModelResponse.decoded (PyJson.obj fields)) =
        Except.ok [PyJson.obj fields]) ∧
    (∀ xs : List PyJson,
      normalizeResponse (ModelResponse.decoded (PyJson.arr xs)) = Except.ok xs) ∧
    (∀ raw, normalizeResponse (ModelResponse.undecodable raw) =
      Except.error ("Error: Gemini returned invalid JSON: " ++ raw, false)) ∧
    (∀ j, scalarJson j = true →
      normalizeResponse (ModelResponse.decoded j) =
        Except.error ("Error: Gemini did not return a valid action array or object.", false)) := by
  refine ⟨?_, ?_, ?_, ?_, ?_⟩
  · intro fields xs h
    simp only [normalizeResponse]
    rw [h]
  · intro fields h
    cases hl : fields.lookup "actions" with
    | none => simp [normalizeResponse, hl]
    | some v =>
      cases v with
      | arr xs => exact absurd hl (h xs)
      | null => simp [normalizeResponse, hl]
      | bool b => simp [normalizeResponse, hl]
      | int n => simp [normalizeResponse, hl]
      | str s => simp [normalizeResponse, hl]
      | obj fs => simp [normalizeResponse, hl]
  · intro xs; rfl
  · intro raw; rfl
  · intro j hj
    cases j with
    | null => rfl
    | bool b => rfl
    | int n => rfl
    | str s => rfl
    | arr xs => simp [scalarJson] at hj
    | obj fs => simp [scalarJson] at hj

/-- A top-level JSON array response, for settling C5. -/
def arrayResponse : PyJson :=
  PyJson.arr [PyJson.obj [("action", PyJson.str "done"), ("text", PyJson.str "ok")]]

/-- C5 counterexample to the claim as stated: a top-level JSON array is
neither an `{actions: [...]}` envelope nor a single action object, yet it is
accepted and normalized to its own element list rather than being a hard
parse failure. -/
theorem C5_counterexample :
    normalizeResponse (ModelResponse.decoded arrayResponse) =
      Except.ok [PyJson.obj [("action", PyJson.str "done"), ("text", PyJson.str "ok")]] ∧
    (normalizeResponse (ModelResponse.decoded arrayResponse)).isOk = true := by
  exact ⟨rfl, rfl⟩

/-- Witness for C5 at a concrete `{actions: [...]}` envelope. -/
theorem C5_normalization_witness :
    normalizeResponse (ModelResponse.decoded (PyJson.obj
      [("thought", PyJson.str "t"),
       ("actions", PyJson.arr [PyJson.obj [("action", PyJson.str "done")]])])) =
      Except.ok [PyJson.obj [("action", PyJson.str "done")]] := by
  exact C5_normalization.1 _ _ (by rfl)

/-! ## Verification fail-open (`Agent.verify_result`, agent.py lines 333-378) -/

/-- Outcome of the verification model call: the gateway call raised, the
response text was not valid JSON (or not a dict, so `.get` raised), or it
parsed to a JSON value. -/
inductive VerifyCallResult where
  | modelError
  | unparseable (raw : String)
  | parsed (j : PyJson)

/-- The note returned by the `except` branch of `verify_result` (line 378). -/
def verifyTechNote : String :=
  "Verification failed due to technical error, assuming success."

/-- `Agent.verify_result` outcome: `(success, feedback)` as JSON values.  Any
exception — gateway failure, undecodable JSON, or `.get` on a non-dict —
lands in the `except` branch which returns `(True, technical note)`. -/
def verify_result : VerifyCallResult → PyJson × PyJson
  | VerifyCallResult.modelError => (PyJson.bool true, PyJson.str verifyTechNote)
  | VerifyCallResult.unparseable _ => (PyJson.bool true, PyJson.str verifyTechNote)
  | VerifyCallResult.parsed (PyJson.obj fields) =>
    ((fields.lookup "success").getD (PyJson.bool false),
     (fields.lookup "feedback").getD (PyJson.str "No feedback provided."))
  | VerifyCallResult.parsed _ => (PyJson.bool true, PyJson.str verifyTechNote)

/-- C6: when the verification step itself fails technically — the model call
raises or its response cannot be parsed — `verify_result` returns
`success = true` together with an explanatory feedback note, so verification
never blocks delivery. -/
theorem C6_verify_fail_open (r : VerifyCallResult)
    (h : r = VerifyCallResult.modelError ∨ ∃ raw, r = VerifyCallResult.unparseable raw) :
    verify_result r = (PyJson.bool true, PyJson.str verifyTechNote) := by
  rcases h with rfl | ⟨raw, rfl⟩ <;> rfl

/-- Witness for C6 at the concrete raised-call outcome. -/
theorem C6_verify_fail_open_witness :
    verify_result VerifyCallResult.modelError =
      (PyJson.bool true, PyJson.str verifyTechNote) := by
  exact C6_verify_fail_open VerifyCallResult.modelError (Or.inl rfl)

/-! ## Planner fallbacks (`Planner.create_plan` / `Planner.update_plan`,
planner.py lines 36-52 and 72-83) -/

/-- The conservative fallback Plan of planner.py lines 47-52. -/
def fallbackPlan : PyJson :=
  PyJson.obj [("thought", PyJson.str "Fallback planning due to error."),
    ("plan", PyJson.arr [PyJson.str "Execute browser loop directly."]),
    ("estimated_steps", PyJson.int 10),
    ("success_criteria", PyJson.str "Fulfill request as best as possible.")]

/-- Outcome of a planner model call: any exception (gateway failure or
`json.loads` failure) or a parsed JSON plan. -/
inductive PlannerCallResult where
  | failure
  | success (j : PyJson)

/-- `Planner.create_plan`: returns the parsed plan, or the fallback Plan on
any failure. -/
def create_plan : PlannerCallResult → PyJson
  | PlannerCallResult.failure => fallbackPlan
  | PlannerCallResult.success j => j

/-- `Planner.update_plan`: returns the parsed revision, or the unmodified
input plan on any failure. -/
def update_plan (currentPlan : PyJson) : PlannerCallResult → PyJson
  | PlannerCallResult.failure => currentPlan
  | PlannerCallResult.success j => j

/-- C7: a failed `create_plan` call returns the conservative fallback Plan,
whose `plan` list contains exactly one step, rather than failing the Task;
and a failed `update_plan` call returns the input Plan unmodified. -/
theorem C7_planner_fallback :
    create_plan PlannerCallResult.failure = fallbackPlan ∧
    (∃ steps, jGet fallbackPlan "plan" = some (PyJson.arr steps) ∧ steps.length = 1) ∧
    (∀ p : PyJson, update_plan p PlannerCallResult.failure = p) := by
  exact ⟨rfl, ⟨[PyJson.str "Execute browser loop directly."], rfl, rfl⟩, fun p => rfl⟩

/-! ## Image-generation gateway (`Agent._call_image_gen`, agent.py
lines 152-176) -/

/-- Outcome of attempting one image model: a response, the 60-second
`asyncio.wait_for` timeout, or another exception with the given text. -/
inductive ImageOutcome where
  | success (resp : String)
  | timeout
  | failure (err : String)
deriving DecidableEq, Repr

/-- Error text seen by the substring classifier.  `str(asyncio.TimeoutError())`
is the empty string (modelled from the Python standard library). -/
def imageErrText : ImageOutcome → String
  | ImageOutcome.timeout => ""
  | ImageOutcome.failure e => e
  | ImageOutcome.success _ => ""

/-- Loop body of `Agent._call_image_gen`: same classifier and fallback scheme
as `_call_gemini`, applied to the image-model candidates. -/
def callImageGenAux : List ImageOutcome → Option String → List ImageOutcome →
    GatewayResult × List ImageOutcome
  | [], lastError, tried =>
    (match lastError with
     | some e => GatewayResult.raised e
     | none => GatewayResult.noModels, tried)
  | ImageOutcome.success r :: _, _, tried =>
    (GatewayResult.ok r, tried ++ [ImageOutcome.success r])
  | ImageOutcome.timeout :: rest, _, tried =>
    if isRetryable (imageErrText ImageOutcome.timeout) then
      callImageGenAux rest (some (imageErrText ImageOutcome.timeout))
        (tried ++ [ImageOutcome.timeout])
    else
      (GatewayResult.raised (imageErrText ImageOutcome.timeout),
       tried ++ [ImageOutcome.timeout])
  | ImageOutcome.failure e :: rest, _, tried =>
    if isRetryable e then callImageGenAux rest (some e) (tried ++ [ImageOutcome.failure e])
    else (GatewayResult.raised e, tried ++ [ImageOutcome.failure e])

/-- `Agent._call_image_gen` over the image-model candidates, returning the
result and the candidates tried, in order. -/
def callImageGen (outcomes : List ImageOutcome) : GatewayResult × List ImageOutcome :=
  callImageGenAux outcomes none []

/-- An image-model outcome that is a retryable failure. -/
def retryableImageFailure (o : ImageOutcome) : Prop :=
  ∃ e, o = ImageOutcome.failure e ∧ isRetryable e = true

lemma callImageGenAux_skip_retryable (pre : List ImageOutcome)
    (h : ∀ o ∈ pre, retryableImageFailure o) :
    ∀ rest lastError tried,
      callImageGenAux (pre ++ rest) lastError tried =
        callImageGenAux rest (pre.foldl (fun le o =>
            match o with
            | ImageOutcome.failure e => some e
            | _ => le) lastError) (tried ++ pre) := by
  induction pre with
  | nil => intro rest lastError tried; simp
  | cons o pre ih =>
    intro rest lastError tried
    obtain ⟨e, rfl, hr⟩ := h o (List.mem_cons_self o pre)
    have hpre : ∀ o ∈ pre, retryableImageFailure o := fun o ho => h o (List.mem_cons_of_mem _ ho)
    simp only [List.cons_append, callImageGenAux, hr, if_true, List.append_eq]
    rw [ih hpre]
    simp [List.foldl_cons, List.append_assoc]

/-- C10: the timeout error produced when an image-model attempt exceeds the
60-second limit has empty text, which contains none of the retryable markers,
so the substring classifier treats the timeout as fatal and the image gateway
re-raises it immediately without trying any remaining image model — in
particular, any run of retryable failures followed by a hang aborts the
entire fallback chain at the hanging candidate. -/
theorem C10_image_timeout_fatal :
    (∀ m ∈ retryableMarkers,
      containsSub ((imageErrText ImageOutcome.timeout).data.map Char.toLower) m.data = false) ∧
    isRetryable (imageErrText ImageOutcome.timeout) = false ∧
    (∀ (pre : List ImageOutcome) (rest : List ImageOutcome),
      (∀ o ∈ pre, retryableImageFailure o) →
      callImageGen (pre ++ ImageOutcome.timeout :: rest) =
        (GatewayResult.raised (imageErrText ImageOutcome.timeout),
         pre ++ [ImageOutcome.timeout])) := by
  refine ⟨?_, ?_, ?_⟩
  · intro m hm
    fin_cases hm <;> rfl
  · rfl
  · intro pre rest h
    unfold callImageGen
    rw [callImageGenAux_skip_retryable pre h]
    simp [callImageGenAux, show isRetryable (imageErrText ImageOutcome.timeout) = false from rfl]

/-- Witness for C10: the first image model fails with a 429 (retryable), the
second hangs past the timeout; the timeout aborts the chain and the third
model is never tried. -/
theorem C10_image_timeout_fatal_witness :
    callImageGen [ImageOutcome.failure "429 quota", ImageOutcome.timeout,
        ImageOutcome.success "img"] =
      (GatewayResult.raised "", [ImageOutcome.failure "429 quota", ImageOutcome.timeout]) := by
  have h := C10_image_timeout_fatal.2.2 [ImageOutcome.failure "429 quota"]
    [ImageOutcome.success "img"]
    (by
      intro o ho
      simp only [List.mem_singleton] at ho
      exact ⟨"429 quota", ho, by decide⟩)
  simpa [imageErrText] using h

/-! ## JSON serialization (Python `json.dumps` with `ensure_ascii=True`) -/

/-- Lowercase hexadecimal digit character. -/
def hexDigitChar (n : Nat) : Char :=
  if n < 10 then Char.ofNat (48 + n) else Char.ofNat (87 + n)

/-- A `\uXXXX` escape for a code unit. -/
def uEsc (n : Nat) : List Char :=
  ['\\', 'u', hexDigitChar (n / 4096 % 16), hexDigitChar (n / 256 % 16),
   hexDigitChar (n / 16 % 16), hexDigitChar (n % 16)]

/-- Per-character escaping of `json.dumps` (default `ensure_ascii=True`):
printable ASCII except quote and backslash is kept; the usual short escapes;
`\uXXXX` for everything else, with a surrogate pair for astral code points. -/
def escChar (c : Char) : List Char :=
  if c = '\\' then ['\\', '\\']
  else if c = '"' then ['\\', '"']
  else if c.toNat = 8 then ['\\', 'b']
  else if c.toNat = 9 then ['\\', 't']
  else if c.toNat = 10 then ['\\', 'n']
  else if c.toNat = 12 then ['\\', 'f']
  else if c.toNat = 13 then ['\\', 'r']
  else if 32 ≤ c.toNat ∧ c.toNat ≤ 126 then [c]
  else if c.toNat < 65536 then uEsc c.toNat
  else uEsc (55296 + (c.toNat - 65536) / 1024) ++ uEsc (56320 + (c.toNat - 65536) % 1024)

/-- Escaped body of a JSON string literal. -/
def escStr (s : String) : List Char := s.data.flatMap escChar

/-- A JSON string literal. -/
def dumpStrC (s : String) : List Char := '"' :: (escStr s ++ ['"'])

/-- Decimal digit character. -/
def digitChar (n : Nat) : Char := Char.ofNat (48 + n)

/-- Decimal digits of a natural number, most significant first. -/
def natDigs (n : Nat) : List Char :=
  if n < 10 then [digitChar n]
  else natDigs (n / 10) ++ [digitChar (n % 10)]
termination_by n
decreasing_by exact Nat.div_lt_self (by omega) (by omega)

/-- Python `repr` of an int. -/
def dumpInt (n : Int) : List Char :=
  if n < 0 then '-' :: natDigs n.natAbs else natDigs n.natAbs

mutual

/-- Compact `json.dumps` (default separators `", "` and `": "`). -/
def dumpJson : PyJson → List Char
  | PyJson.null => ['n', 'u', 'l', 'l']
  | PyJson.bool true => ['t', 'r', 'u', 'e']
  | PyJson.bool false => ['f', 'a', 'l', 's', 'e']
  | PyJson.int n => dumpInt n
  | PyJson.str s => dumpStrC s
  | PyJson.arr [] => ['[', ']']
  | PyJson.arr (x :: xs) => '[' :: (dumpElems x xs ++ [']'])
  | PyJson.obj [] => ['{', '}']
  | PyJson.obj (kv :: kvs) => '{' :: (dumpMembers kv kvs ++ ['}'])
termination_by j => sizeOf j
decreasing_by all_goals (simp_wf <;> omega)

/-- Comma-separated array elements. -/
def dumpElems : PyJson → List PyJson → List Char
  | x, [] => dumpJson x
  | x, y :: xs => dumpJson x ++ (',' :: ' ' :: dumpElems y xs)
termination_by x xs => sizeOf x + sizeOf xs
decreasing_by all_goals (simp_wf <;> omega)

/-- One `"key": value` member. -/
def dumpMember : String × PyJson → List Char
  | (k, v) => dumpStrC k ++ (':' :: ' ' :: dumpJson v)
termination_by kv => sizeOf kv
decreasing_by all_goals (simp_wf <;> omega)

/-- Comma-separated object members. -/
def dumpMembers : String × PyJson → List (String × PyJson) → List Char
  | kv, [] => dumpMember kv
  | kv, kv2 :: kvs => dumpMember kv ++ (',' :: ' ' :: dumpMembers kv2 kvs)
termination_by kv kvs => sizeOf kv + sizeOf kvs
decreasing_by all_goals (simp_wf <;> omega)

end

/-- `json.dumps(value)` as a Lean string. -/
def json_dumps (j : PyJson) : String := String.mk (dumpJson j)

/-! ## Session history (`Agent.save_sessions` / `Agent.add_to_history`,
agent.py lines 185-211 and 229-236) -/

/-- One sessions.json entry:
`[user_instruction, actions_json, final_result, verification_status, verification_feedback]`. -/
structure HistoryEntry where
  userInstruction : String
  actionsJson : String
  finalResult : String
  verifyStatus : Option Bool
  verifyFeedback : Option String
deriving DecidableEq, Repr

/-- `self.history`: insertion-ordered mapping from chat id to its entry list
(a Python dict, so keys are unique). -/
abbrev History := List (String × List HistoryEntry)

/-- Indentation of `indent=4` at a nesting level. -/
def indentN (level : Nat) : List Char := List.replicate (4 * level) ' '

/-- `null` / `true` / `false` for the verification-status slot. -/
def dumpOptBool : Option Bool → List Char
  | none => ['n', 'u', 'l', 'l']
  | some true => ['t', 'r', 'u', 'e']
  | some false => ['f', 'a', 'l', 's', 'e']

/-- `null` or a string for the verification-feedback slot. -/
def dumpOptStr : Option String → List Char
  | none => ['n', 'u', 'l', 'l']
  | some s => dumpStrC s

/-- The five serialized items of one entry. -/
def entryItems (e : HistoryEntry) : List (List Char) :=
  [dumpStrC e.userInstruction, dumpStrC e.actionsJson, dumpStrC e.finalResult,
   dumpOptBool e.verifyStatus, dumpOptStr e.verifyFeedback]

/-- Items of an `indent=4` container, each on its own line at `level + 1`,
joined by `",\n"`. -/
def joinInd (level : Nat) : List Char → List (List Char) → List Char
  | it, [] => indentN (level + 1) ++ it
  | it, it2 :: its => indentN (level + 1) ++ it ++ (',' :: '\n' :: joinInd level it2 its)

/-- `json.dumps(..., indent=4)` container layout: empty containers collapse,
non-empty ones put each item on its own line. -/
def containerInd (level : Nat) (opn cls : Char) (items : List (List Char)) : List Char :=
  match items with
  | [] => [opn, cls]
  | it :: its => opn :: '\n' :: (joinInd level it its ++ ('\n' :: (indentN level ++ [cls])))

/-- One serialized entry at a nesting level. -/
def dumpEntryInd (level : Nat) (e : HistoryEntry) : List Char :=
  containerInd level '[' ']' (entryItems e)

/-- One conversation's serialized entry list at a nesting level. -/
def dumpEntriesInd (level : Nat) (es : List HistoryEntry) : List Char :=
  containerInd level '[' ']' (es.map (dumpEntryInd (level + 1)))

/-- `json.dumps(self.history, indent=4)`. -/
def dumpHistory (h : History) : List Char :=
  containerInd 0 '{' '}'
    (h.map (fun ce => dumpStrC ce.1 ++ (':' :: ' ' :: dumpEntriesInd 1 ce.2)))

/-- `len(json.dumps(self.history, indent=4))` — all output is ASCII under
`ensure_ascii`, so characters and bytes coincide. -/
def sessionsJsonLen (h : History) : Nat := (dumpHistory h).length

/-- The 100 MB ceiling of `save_sessions` (line 187). -/
def maxSessionSize : Nat := 100 * 1024 * 1024

/-- Total number of history entries across all conversations. -/
def totalEntries (h : History) : Nat := (h.map (fun ce => ce.2.length)).sum

/-- Lines 197-202: find the chat id with the most entries (first one wins on
ties; starts from `max_len = 0` with a strict comparison, so empty
conversations are never selected). -/
def bestTargetAux : History → Option String → Nat → Option String
  | [], best, _ => best
  | (cid, hist) :: rest, best, maxLen =>
    if hist.length > maxLen then bestTargetAux rest (some cid) hist.length
    else bestTargetAux rest best maxLen

/-- `best_target` of the pruning loop. -/
def bestTarget (h : History) : Option String := bestTargetAux h none 0

/-- `self.history[best_target].pop(0)`: drop the oldest entry of the named
conversation. -/
def popOldest : History → String → History
  | [], _ => []
  | (c, es) :: rest, cid =>
    if c = cid then (c, es.tail) :: rest else (c, es) :: popOldest rest cid

/-- The pruning loop of `save_sessions` (lines 191-208), fuelled by the total
entry count (each iteration that continues removes exactly one entry).  The
guard of line 204 is `if best_target and max_len > 0:` with `best_target` a
string-or-None, so Python truthiness stops the loop when `best_target` is
`None` **or the empty string**; `max_len > 0` adds nothing, since
`best_target` is only ever assigned under `len(hist) > max_len ≥ 0`, which
forces `max_len ≥ 1` whenever `best_target` is set. -/
def pruneFuel : Nat → History → History
  | 0, h => h
  | n + 1, h =>
    if sessionsJsonLen h ≤ maxSessionSize then h
    else
      match bestTarget h with
      | none => h
      | some cid => if cid = "" then h else pruneFuel n (popOldest h cid)

/-- `Agent.save_sessions`: the history actually written to sessions.json. -/
def save_sessions (h : History) : History := pruneFuel (totalEntries h) h

/-- Lines 233-235: append the entry, then `pop(0)` once the count cap of 1000
is exceeded. -/
def capAppend (es : List HistoryEntry) (e : HistoryEntry) : List HistoryEntry :=
  let es2 := es ++ [e]
  if 1000 < es2.length then es2.tail else es2

/-- The history entry built by `add_to_history`: the action list is stored as
its compact `json.dumps` serialization, verification slots start as `None`. -/
def mkEntry (userInstruction : String) (actions : List PyJson)
    (finalResult : String) : HistoryEntry :=
  { userInstruction := userInstruction,
    actionsJson := json_dumps (PyJson.arr actions),
    finalResult := finalResult, verifyStatus := none, verifyFeedback := none }

/-- `Agent.add_to_history` (via `get_history`, which inserts a missing chat id
with an empty list at the end). -/
def add_to_history (h : History) (cid userInstruction : String)
    (actions : List PyJson) (finalResult : String) : History :=
  if h.any (fun ce => ce.1 == cid) then
    h.map (fun ce =>
      if ce.1 = cid then (ce.1, capAppend ce.2 (mkEntry userInstruction actions finalResult))
      else ce)
  else h ++ [(cid, capAppend [] (mkEntry userInstruction actions finalResult))]

/-- Every conversation's entry list is empty. -/
def allEmpty (h : History) : Prop := ∀ ce ∈ h, ce.2 = []

lemma bestTargetAux_some_ne_none (l : History) (c : String) (m : Nat) :
    bestTargetAux l (some c) m ≠ none := by
  induction l generalizing c m with
  | nil => simp [bestTargetAux]
  | cons ce rest ih =>
    obtain ⟨cid, hist⟩ := ce
    by_cases hlen : hist.length > m
    · simpa [bestTargetAux, hlen] using ih cid hist.length
    · simpa [bestTargetAux, hlen] using ih c m

lemma bestTargetAux_none (l : History) (best : Option String) (m : Nat)
    (h : bestTargetAux l best m = none) :
    best = none ∧ ∀ ce ∈ l, ce.2.length ≤ m := by
  induction l generalizing best m with
  | nil => exact ⟨h, by simp⟩
  | cons ce rest ih =>
    obtain ⟨cid, hist⟩ := ce
    by_cases hlen : hist.length > m
    · rw [show bestTargetAux ((cid, hist) :: rest) best m =
        bestTargetAux rest (some cid) hist.length from by simp [bestTargetAux, hlen]] at h
      exact absurd h (bestTargetAux_some_ne_none rest cid hist.length)
    · rw [show bestTargetAux ((cid, hist) :: rest) best m =
        bestTargetAux rest best m from by simp [bestTargetAux, hlen]] at h
      obtain ⟨hb, hall⟩ := ih best m h
      refine ⟨hb, ?_⟩
      intro ce hce
      rcases List.mem_cons.mp hce with rfl | hmem
      · show hist.length ≤ m
        omega
      · exact hall ce hmem

lemma bestTargetAux_some (l : History) :
    ∀ (best : Option String) (m : Nat) (cid : String),
      bestTargetAux l best m = some cid →
      (best = some cid ∧ ∀ ce ∈ l, ce.2.length ≤ m) ∨
      (∃ es, (cid, es) ∈ l ∧ m < es.length ∧ ∀ ce ∈ l, ce.2.length ≤ es.length) := by
  induction l with
  | nil =>
    intro best m cid h
    simp [bestTargetAux] at h
    exact Or.inl ⟨by rw [h], by simp⟩
  | cons ce rest ih =>
    intro best m cid h
    obtain ⟨c, hist⟩ := ce
    by_cases hlen : hist.length > m
    · rw [show bestTargetAux ((c, hist) :: rest) best m =
        bestTargetAux rest (some c) hist.length from by simp [bestTargetAux, hlen]] at h
      rcases ih (some c) hist.length cid h with ⟨hb, hall⟩ | ⟨es, hmem, hm, hall⟩
      · refine Or.inr ⟨hist, ?_, hlen, ?_⟩
        · rw [show cid = c from by injection hb.symm]
          exact List.mem_cons_self _ _
        · intro ce hce
          rcases List.mem_cons.mp hce with rfl | hmem
          · exact le_refl _
          · exact hall ce hmem
      · refine Or.inr ⟨es, List.mem_cons_of_mem _ hmem, by omega, ?_⟩
        intro ce hce
        rcases List.mem_cons.mp hce with rfl | hmem2
        · show hist.length ≤ es.length
          omega
        · exact hall ce hmem2
    · rw [show bestTargetAux ((c, hist) :: rest) best m =
        bestTargetAux rest best m from by simp [bestTargetAux, hlen]] at h
      rcases ih best m cid h with ⟨hb, hall⟩ | ⟨es, hmem, hm, hall⟩
      · refine Or.inl ⟨hb, ?_⟩
        intro ce hce
        rcases List.mem_cons.mp hce with rfl | hmem
        · show hist.length ≤ m
          omega
        · exact hall ce hmem
      · refine Or.inr ⟨es, List.mem_cons_of_mem _ hmem, hm, ?_⟩
        intro ce hce
        rcases List.mem_cons.mp hce with rfl | hmem2
        · show hist.length ≤ es.length
          omega
        · exact hall ce hmem2

lemma bestTarget_spec (h : History) (cid : String) (hb : bestTarget h = some cid) :
    ∃ es, (cid, es) ∈ h ∧ 0 < es.length ∧ ∀ ce ∈ h, ce.2.length ≤ es.length := by
  rcases bestTargetAux_some h none 0 cid hb with ⟨hcontra, _⟩ | ⟨es, hmem, hm, hall⟩
  · exact absurd hcontra (by simp)
  · exact ⟨es, hmem, hm, hall⟩

lemma popOldest_keys (h : History) (cid : String) :
    (popOldest h cid).map Prod.fst = h.map Prod.fst := by
  induction h with
  | nil => rfl
  | cons ce rest ih =>
    obtain ⟨c, es⟩ := ce
    by_cases hc : c = cid
    · simp [popOldest, hc]
    · simp [popOldest, hc, ih]

lemma totalEntries_popOldest (h : History) (cid : String) (es : List HistoryEntry)
    (hnodup : (h.map Prod.fst).Nodup) (hmem : (cid, es) ∈ h) (hlen : 0 < es.length) :
    totalEntries (popOldest h cid) < totalEntries h := by
  induction h with
  | nil => simp at hmem
  | cons ce rest ih =>
    obtain ⟨c, es0⟩ := ce
    simp only [List.map_cons, List.nodup_cons] at hnodup
    obtain ⟨hnotin, hnodup'⟩ := hnodup
    by_cases hc : c = cid
    · subst hc
      have hes : es = es0 := by
        rcases List.mem_cons.mp hmem with heq | hmem'
        · exact congrArg Prod.snd heq
        · exact absurd (List.mem_map.mpr ⟨(c, es), hmem', rfl⟩) hnotin
      subst hes
      have hpop : popOldest ((c, es) :: rest) c = (c, es.tail) :: rest := by
        simp [popOldest]
      rw [hpop]
      unfold totalEntries
      simp only [List.map_cons, List.sum_cons]
      have htail : es.tail.length = es.length - 1 := List.length_tail es
      omega
    · have hmem' : (cid, es) ∈ rest := by
        rcases List.mem_cons.mp hmem with heq | hmem'
        · exact absurd (by injection heq with h1 _; exact h1.symm) hc
        · exact hmem'
      have := ih hnodup' hmem'
      simp only [popOldest, if_neg hc, totalEntries, List.map_cons, List.sum_cons]
      unfold totalEntries at this
      omega

lemma totalEntries_zero_allEmpty (h : History) (hz : totalEntries h = 0) : allEmpty h := by
  intro ce hce
  unfold totalEntries at hz
  have : ce.2.length = 0 := by
    have := List.sum_eq_zero_iff.mp hz (ce.2.length) (List.mem_map.mpr ⟨ce, hce, rfl⟩)
    exact this
  exact List.length_eq_zero.mp this

lemma pruneFuel_within (n : Nat) (h : History)
    (hsz : sessionsJsonLen h ≤ maxSessionSize) : pruneFuel (n + 1) h = h := by
  show (if sessionsJsonLen h ≤ maxSessionSize then h
    else
      match bestTarget h with
      | none => h
      | some cid => if cid = "" then h else pruneFuel n (popOldest h cid)) = h
  rw [if_pos hsz]

lemma pruneFuel_stop_none (n : Nat) (h : History)
    (hsz : ¬ sessionsJsonLen h ≤ maxSessionSize) (hb : bestTarget h = none) :
    pruneFuel (n + 1) h = h := by
  show (if sessionsJsonLen h ≤ maxSessionSize then h
    else
      match bestTarget h with
      | none => h
      | some cid => if cid = "" then h else pruneFuel n (popOldest h cid)) = h
  rw [if_neg hsz, hb]

lemma pruneFuel_stop_empty (n : Nat) (h : History)
    (hsz : ¬ sessionsJsonLen h ≤ maxSessionSize) (hb : bestTarget h = some "") :
    pruneFuel (n + 1) h = h := by
  show (if sessionsJsonLen h ≤ maxSessionSize then h
    else
      match bestTarget h with
      | none => h
      | some cid => if cid = "" then h else pruneFuel n (popOldest h cid)) = h
  rw [if_neg hsz, hb]
  show (if ("" : String) = "" then h else pruneFuel n (popOldest h "")) = h
  rw [if_pos rfl]

lemma pruneFuel_step (n : Nat) (h : History) (cid : String)
    (hsz : ¬ sessionsJsonLen h ≤ maxSessionSize) (hb : bestTarget h = some cid)
    (hcid : cid ≠ "") :
    pruneFuel (n + 1) h = pruneFuel n (popOldest h cid) := by
  show (if sessionsJsonLen h ≤ maxSessionSize then h
    else
      match bestTarget h with
      | none => h
      | some cid => if cid = "" then h else pruneFuel n (popOldest h cid)) =
    pruneFuel n (popOldest h cid)
  rw [if_neg hsz, hb]
  show (if cid = "" then h else pruneFuel n (popOldest h cid)) =
    pruneFuel n (popOldest h cid)
  rw [if_neg hcid]

lemma pruneFuel_bound : ∀ (n : Nat) (h : History), (h.map Prod.fst).Nodup →
    totalEntries h ≤ n →
    sessionsJsonLen (pruneFuel n h) ≤ maxSessionSize ∨ allEmpty (pruneFuel n h) ∨
      bestTarget (pruneFuel n h) = some "" := by
  intro n
  induction n with
  | zero =>
    intro h _ hle
    exact Or.inr (Or.inl (totalEntries_zero_allEmpty h (by omega)))
  | succ n ih =>
    intro h hnodup hle
    by_cases hsz : sessionsJsonLen h ≤ maxSessionSize
    · rw [pruneFuel_within n h hsz]
      exact Or.inl hsz
    · cases hb : bestTarget h with
      | none =>
        rw [pruneFuel_stop_none n h hsz hb]
        refine Or.inr (Or.inl ?_)
        intro ce hce
        have := (bestTargetAux_none h none 0 hb).2 ce hce
        exact List.length_eq_zero.mp (by omega)
      | some cid =>
        by_cases hcid : cid = ""
        · subst hcid
          rw [pruneFuel_stop_empty n h hsz hb]
          exact Or.inr (Or.inr hb)
        · rw [pruneFuel_step n h cid hsz hb hcid]
          obtain ⟨es, hmem, hlen, _⟩ := bestTarget_spec h cid hb
          have hdec := totalEntries_popOldest h cid es hnodup hmem hlen
          have hkeys : ((popOldest h cid).map Prod.fst).Nodup := by
            rw [popOldest_keys]; exact hnodup
          exact ih (popOldest h cid) hkeys (by omega)

lemma popOldest_append_of_notin (pre : History) (post : History) (cid : String)
    (es : List HistoryEntry) (hnotin : cid ∉ pre.map Prod.fst) :
    popOldest (pre ++ (cid, es) :: post) cid = pre ++ (cid, es.tail) :: post := by
  induction pre with
  | nil => simp [popOldest]
  | cons ce rest ih =>
    obtain ⟨c, es0⟩ := ce
    simp only [List.map_cons, List.mem_cons] at hnotin
    push_neg at hnotin
    obtain ⟨hc, hnotin'⟩ := hnotin
    have hcc : ¬(c = cid) := fun h => hc h.symm
    simp only [List.cons_append, popOldest, if_neg hcc, List.append_eq]
    rw [ih hnotin']

lemma capAppend_le (es : List HistoryEntry) (e : HistoryEntry) (h : es.length ≤ 1000) :
    (capAppend es e).length ≤ 1000 := by
  unfold capAppend
  by_cases h2 : 1000 < (es ++ [e]).length
  · rw [if_pos h2]
    simp only [List.length_tail, List.length_append, List.length_singleton] at h2 ⊢
    omega
  · rw [if_neg h2]
    simp only [List.length_append, List.length_singleton] at h2 ⊢
    omega

/-- C8 (amended): the pruning loop of `save_sessions` brings the serialized
history within the 100 MB ceiling whenever that is possible — on termination
either the size is within the ceiling, or every conversation is already
empty (the escape hatch of lines 206-208), or the selected longest
conversation is keyed by the empty-string chat id (line 204's
`if best_target and max_len > 0` is falsy for the empty string by Python
truthiness, so the loop breaks without evicting); in the escape cases the
file may still exceed the ceiling.  Whenever the size exceeds the ceiling
and the target's key is non-empty the loop evicts the oldest entry of the
(first) conversation with the most entries and repeats; with an
empty-string target it stops at once.  `add_to_history` keeps every
conversation's entry count at most 1000, dropping the oldest entry once
the cap is exceeded. -/
theorem C8_history_bound :
    (∀ h : History, (h.map Prod.fst).Nodup →
      sessionsJsonLen (save_sessions h) ≤ maxSessionSize ∨ allEmpty (save_sessions h) ∨
        bestTarget (save_sessions h) = some "") ∧
    (∀ (h : History) (cid : String), bestTarget h = some cid →
      ∃ es, (cid, es) ∈ h ∧ 0 < es.length ∧ ∀ ce ∈ h, ce.2.length ≤ es.length) ∧
    (∀ (pre post : History) (cid : String) (es : List HistoryEntry),
      cid ∉ pre.map Prod.fst →
      popOldest (pre ++ (cid, es) :: post) cid = pre ++ (cid, es.tail) :: post) ∧
    (∀ (h : History) (n : Nat) (cid : String),
      maxSessionSize < sessionsJsonLen h → bestTarget h = some cid → cid ≠ "" →
      pruneFuel (n + 1) h = pruneFuel n (popOldest h cid)) ∧
    (∀ (h : History) (n : Nat),
      maxSessionSize < sessionsJsonLen h → bestTarget h = some "" →
      pruneFuel (n + 1) h = h) ∧
    (∀ (h : History) (cid userInstruction : String) (actions : List PyJson)
        (finalResult : String),
      (∀ ce ∈ h, ce.2.length ≤ 1000) →
      ∀ ce ∈ add_to_history h cid userInstruction actions finalResult,
        ce.2.length ≤ 1000) ∧
    (∀ (es : List HistoryEntry) (e : HistoryEntry),
      es.length = 1000 → capAppend es e = es.tail ++ [e]) := by
  refine ⟨?_, ?_, ?_, ?_, ?_, ?_, ?_⟩
  · intro h hnodup
    exact pruneFuel_bound (totalEntries h) h hnodup (le_refl _)
  · intro h cid hb
    exact bestTarget_spec h cid hb
  · intro pre post cid es hnotin
    exact popOldest_append_of_notin pre post cid es hnotin
  · intro h n cid hsz hb hcid
    exact pruneFuel_step n h cid (by omega) hb hcid
  · intro h n hsz hb
    exact pruneFuel_stop_empty n h (by omega) hb
  · intro h cid ui acts fr hbound ce hce
    by_cases hany : h.any (fun p => p.1 == cid)
    · rw [add_to_history, if_pos hany] at hce
      obtain ⟨orig, horig, heq⟩ := List.mem_map.mp hce
      by_cases hcid : orig.1 = cid
      · rw [if_pos hcid] at heq
        rw [← heq]
        exact capAppend_le _ _ (hbound orig horig)
      · rw [if_neg hcid] at heq
        rw [← heq]
        exact hbound orig horig
    · rw [add_to_history, if_neg hany] at hce
      rcases List.mem_append.mp hce with hmem | hmem
      · exact hbound ce hmem
      · simp only [List.mem_singleton] at hmem
        rw [hmem]
        exact capAppend_le [] _ (by simp)
  · intro es e hlen
    unfold capAppend
    rw [if_pos (by simp only [List.length_append, List.length_singleton]; omega)]
    cases es with
    | nil => simp at hlen
    | cons a l => simp

lemma escChar_ascii_a : escChar 'a' = ['a'] := rfl

lemma flatMap_escChar_replicate_a (n : Nat) :
    ((List.replicate n 'a').flatMap escChar).length = n := by
  induction n with
  | zero => rfl
  | succ n ih => simp [List.replicate_succ, escChar_ascii_a, ih]

/-- A 100 MB chat id, for settling C8. -/
def overflowCid : String := String.mk (List.replicate 104857600 'a')

/-- A history whose single conversation is empty but whose serialization
exceeds the ceiling. -/
def overflowHistory : History := [(overflowCid, [])]

/-- C8 counterexample to the claim as stated: a history whose conversations
are all empty cannot be pruned (`best_target` stays `None`, so the loop takes
its escape hatch), yet its serialization exceeds the 100 MB ceiling — so the
persisted size is not always within the ceiling. -/
lemma sessionsJsonLen_single_empty (cid : String) :
    sessionsJsonLen [(cid, [])] = (escStr cid).length + 14 := by
  show ('{' :: '\n' :: ((indentN 1 ++ (dumpStrC cid ++
    (':' :: ' ' :: dumpEntriesInd 1 []))) ++ ('\n' :: (indentN 0 ++ ['}'])))).length =
    (escStr cid).length + 14
  simp only [dumpStrC, indentN, dumpEntriesInd, containerInd, List.map_nil,
    List.length_cons, List.length_append, List.length_replicate,
    List.length_singleton, List.length_nil]
  omega

theorem C8_counterexample :
    save_sessions overflowHistory = overflowHistory ∧
    maxSessionSize < sessionsJsonLen (save_sessions overflowHistory) := by
  have hsave : save_sessions overflowHistory = overflowHistory := rfl
  refine ⟨hsave, ?_⟩
  rw [hsave]
  have h1 : (escStr overflowCid).length = 104857600 := by
    have hrepr : escStr overflowCid = (List.replicate 104857600 'a').flatMap escChar := rfl
    rw [hrepr]
    exact flatMap_escChar_replicate_a _
  show maxSessionSize < sessionsJsonLen [(overflowCid, [])]
  rw [sessionsJsonLen_single_empty, h1]
  norm_num [maxSessionSize]

/-- A small concrete entry for the C8 witness. -/
def tinyEntry : HistoryEntry :=
  { userInstruction := "hi", actionsJson := "[]", finalResult := "ok",
    verifyStatus := none, verifyFeedback := none }

/-- A small concrete history for the C8 witness. -/
def tinyHistory : History := [("1", [tinyEntry])]

/-- Witness for C8 at a small concrete history and a full conversation. -/
theorem C8_history_bound_witness :
    (sessionsJsonLen (save_sessions tinyHistory) ≤ maxSessionSize ∨
      allEmpty (save_sessions tinyHistory) ∨
      bestTarget (save_sessions tinyHistory) = some "") ∧
    capAppend (List.replicate 1000 tinyEntry) tinyEntry =
      (List.replicate 1000 tinyEntry).tail ++ [tinyEntry] := by
  refine ⟨C8_history_bound.1 tinyHistory (by simp [tinyHistory]), ?_⟩
  exact C8_history_bound.2.2.2.2.2.2 _ _ (by simp)

/-! ## JSON parsing (Python `json.loads`)

A recursive-descent reader of the JSON grammar as `json.loads` accepts it,
restricted to integer numbers (floats never occur in this system's
serializations).  The value parser is fuelled; `json_loads` supplies ample
fuel derived from the input length. -/

/-- JSON whitespace. -/
def isJsonWs (c : Char) : Bool := c = ' ' || c = '\t' || c = '\n' || c = '\r'

/-- Skip leading whitespace. -/
def skipWs : List Char → List Char
  | [] => []
  | c :: cs => if isJsonWs c then skipWs cs else c :: cs

/-- Does the input start with the given character? -/
def headIs : List Char → Char → Bool
  | c :: _, t => c = t
  | [], _ => false

/-- Consume an expected literal tail (e.g. `ull` after `n`). -/
def dropLit : List Char → List Char → Option (List Char)
  | [], cs => some cs
  | p :: ps, c :: cs => if c = p then dropLit ps cs else none
  | _ :: _, [] => none

/-- Hexadecimal digit value (both cases accepted, as `json.loads` does). -/
def hexVal (c : Char) : Option Nat :=
  if 48 ≤ c.toNat ∧ c.toNat ≤ 57 then some (c.toNat - 48)
  else if 97 ≤ c.toNat ∧ c.toNat ≤ 102 then some (c.toNat - 87)
  else if 65 ≤ c.toNat ∧ c.toNat ≤ 70 then some (c.toNat - 55)
  else none

/-- Prepend a decoded character to a string-body parse result. -/
def consO (c : Char) : Option (List Char × List Char) → Option (List Char × List Char)
  | none => none
  | some (l, r) => some (c :: l, r)

/-- Value of four hexadecimal digits. -/
def decodeHex4 (a b c d : Char) : Option Nat :=
  match hexVal a, hexVal b, hexVal c, hexVal d with
  | some ha, some hb, some hc, some hd => some (ha * 4096 + hb * 256 + hc * 16 + hd)
  | _, _, _, _ => none

/-- After a high surrogate `\uD800..\uDBFF`, read the paired low surrogate and
combine (as `json.loads` does). -/
def parseLowSurrogate (hi : Nat) : List Char → Option (Char × List Char)
  | '\\' :: 'u' :: a :: b :: c :: d :: cs =>
    match decodeHex4 a b c d with
    | some n2 =>
      if 56320 ≤ n2 ∧ n2 < 57344 then
        some (Char.ofNat (65536 + (hi - 55296) * 1024 + (n2 - 56320)), cs)
      else none
    | none => none
  | _ => none

lemma parseLowSurrogate_len (hi : Nat) (cs : List Char) (ch : Char) (cs2 : List Char)
    (h : parseLowSurrogate hi cs = some (ch, cs2)) : cs2.length + 6 = cs.length := by
  unfold parseLowSurrogate at h
  split at h
  · split at h
    · split at h
      · injection h with h2
        have := congrArg Prod.snd h2
        simp only at this
        subst this
        simp
      · exact absurd h (by simp)
    · exact absurd h (by simp)
  · exact absurd h (by simp)

mutual

/-- Body of a JSON string literal, after the opening quote: decode escapes
until the closing quote, returning the decoded characters and the rest. -/
def parseStrBody : List Char → Option (List Char × List Char)
  | [] => none
  | ch :: cs =>
    if ch = '"' then some ([], cs)
    else if ch = '\\' then parseEsc cs
    else consO ch (parseStrBody cs)
termination_by l => l.length
decreasing_by all_goals (simp_wf <;> omega)

/-- Decode one escape sequence (after the backslash). -/
def parseEsc : List Char → Option (List Char × List Char)
  | '"' :: cs => consO '"' (parseStrBody cs)
  | '\\' :: cs => consO '\\' (parseStrBody cs)
  | '/' :: cs => consO '/' (parseStrBody cs)
  | 'b' :: cs => consO (Char.ofNat 8) (parseStrBody cs)
  | 'f' :: cs => consO (Char.ofNat 12) (parseStrBody cs)
  | 'n' :: cs => consO '\n' (parseStrBody cs)
  | 'r' :: cs => consO (Char.ofNat 13) (parseStrBody cs)
  | 't' :: cs => consO '\t' (parseStrBody cs)
  | 'u' :: a :: b :: c :: d :: cs =>
    match decodeHex4 a b c d with
    | some n =>
      if 55296 ≤ n ∧ n < 56320 then
        match hsur : parseLowSurrogate n cs with
        | some (ch2, cs2) => consO ch2 (parseStrBody cs2)
        | none => none
      else if 56320 ≤ n ∧ n < 57344 then none
      else consO (Char.ofNat n) (parseStrBody cs)
    | none => none
  | _ => none
termination_by l => l.length
decreasing_by
  all_goals simp_wf
  all_goals try omega
  · have := parseLowSurrogate_len _ _ _ _ hsur
    omega

end

/-- Decimal digit test. -/
def isDigitCh (c : Char) : Bool := 48 ≤ c.toNat && c.toNat ≤ 57

/-- Value of a digit string, most significant first. -/
def digitsVal (ds : List Char) : Nat :=
  ds.foldl (fun acc c => acc * 10 + (c.toNat - 48)) 0

/-- Parse a maximal run of decimal digits. -/
def parseNat (cs : List Char) : Option (Nat × List Char) :=
  let ds := cs.takeWhile isDigitCh
  if ds.isEmpty then none else some (digitsVal ds, cs.dropWhile isDigitCh)

mutual

/-- Parse one JSON value. -/
def parseVal : Nat → List Char → Option (PyJson × List Char)
  | 0, _ => none
  | fuel + 1, cs =>
    match skipWs cs with
    | [] => none
    | ch :: rest =>
      if ch = '"' then
        match parseStrBody rest with
        | some (chars, rest2) => some (PyJson.str (String.mk chars), rest2)
        | none => none
      else if ch = '[' then
        let r1 := skipWs rest
        if headIs r1 ']' then some (PyJson.arr [], r1.tail)
        else
          match parseElems fuel r1 with
          | some (xs, rest3) => some (PyJson.arr xs, rest3)
          | none => none
      else if ch = '{' then
        let r1 := skipWs rest
        if headIs r1 '}' then some (PyJson.obj [], r1.tail)
        else
          match parseMembers fuel r1 with
          | some (fs, rest3) => some (PyJson.obj fs, rest3)
          | none => none
      else if ch = '-' then
        match parseNat rest with
        | some (n, rest2) => some (PyJson.int (-(n : Int)), rest2)
        | none => none
      else if isDigitCh ch then
        match parseNat (ch :: rest) with
        | some (n, rest2) => some (PyJson.int (n : Int), rest2)
        | none => none
      else if ch = 'n' then
        match dropLit ['u', 'l', 'l'] rest with
        | some rest2 => some (PyJson.null, rest2)
        | none => none
      else if ch = 't' then
        match dropLit ['r', 'u', 'e'] rest with
        | some rest2 => some (PyJson.bool true, rest2)
        | none => none
      else if ch = 'f' then
        match dropLit ['a', 'l', 's', 'e'] rest with
        | some rest2 => some (PyJson.bool false, rest2)
        | none => none
      else none

/-- Parse the elements of a non-empty array, consuming the closing bracket. -/
def parseElems : Nat → List Char → Option (List PyJson × List Char)
  | 0, _ => none
  | fuel + 1, cs =>
    match parseVal fuel cs with
    | none => none
    | some (v, rest) =>
      let r := skipWs rest
      if headIs r ',' then
        match parseElems fuel r.tail with
        | some (vs, rest3) => some (v :: vs, rest3)
        | none => none
      else if headIs r ']' then some ([v], r.tail)
      else none

/-- Parse the members of a non-empty object, consuming the closing brace. -/
def parseMembers : Nat → List Char → Option (List (String × PyJson) × List Char)
  | 0, _ => none
  | fuel + 1, cs =>
    match skipWs cs with
    | [] => none
    | ch :: rest =>
      if ch = '"' then
        match parseStrBody rest with
        | none => none
        | some (kchars, rest2) =>
          let r2 := skipWs rest2
          if headIs r2 ':' then
            match parseVal fuel r2.tail with
            | none => none
            | some (v, rest4) =>
              let r4 := skipWs rest4
              if headIs r4 ',' then
                match parseMembers fuel r4.tail with
                | some (fs, rest6) => some ((String.mk kchars, v) :: fs, rest6)
                | none => none
              else if headIs r4 '}' then some ([(String.mk kchars, v)], r4.tail)
              else none
          else none
      else none

end

/-- `json.loads`: parse a full value and require only whitespace after it. -/
def json_loads (s : String) : Option PyJson :=
  match parseVal (2 * s.length + 2) s.data with
  | some (j, rest) => if (skipWs rest).isEmpty then some j else none
  | none => none

/-! ## Round-trip: `json.loads` after `json.dumps` -/

lemma toNat_ofNat_valid (n : Nat) (h : n.isValidChar) : (Char.ofNat n).toNat = n := by
  rw [Char.ofNat, dif_pos h]
  rfl

lemma char_toNat_valid (c : Char) :
    c.toNat < 55296 ∨ (57343 < c.toNat ∧ c.toNat < 1114112) := c.valid

lemma skipWs_not_ws (c : Char) (cs : List Char) (h : isJsonWs c = false) :
    skipWs (c :: cs) = c :: cs := by
  simp [skipWs, h]

lemma hexVal_hexDigitChar (d : Nat) (h : d < 16) : hexVal (hexDigitChar d) = some d := by
  interval_cases d <;> decide

lemma decodeHex4_uEsc_digits (n : Nat) (h : n < 65536) :
    decodeHex4 (hexDigitChar (n / 4096 % 16)) (hexDigitChar (n / 256 % 16))
      (hexDigitChar (n / 16 % 16)) (hexDigitChar (n % 16)) = some n := by
  have harith : n / 4096 % 16 * 4096 + n / 256 % 16 * 256 + n / 16 % 16 * 16 + n % 16 = n := by
    omega
  simp only [decodeHex4, hexVal_hexDigitChar _ (show n / 4096 % 16 < 16 by omega),
    hexVal_hexDigitChar _ (show n / 256 % 16 < 16 by omega),
    hexVal_hexDigitChar _ (show n / 16 % 16 < 16 by omega),
    hexVal_hexDigitChar _ (show n % 16 < 16 by omega), harith]

lemma backslash_ne_quote : ¬ (('\\' : Char) = '"') := by decide

lemma parseLowSurrogate_uEsc (hi v : Nat) (rest : List Char)
    (hv : 56320 ≤ v ∧ v < 57344) :
    parseLowSurrogate hi (uEsc v ++ rest) =
      some (Char.ofNat (65536 + (hi - 55296) * 1024 + (v - 56320)), rest) := by
  simp only [uEsc, List.cons_append, List.nil_append, parseLowSurrogate,
    decodeHex4_uEsc_digits _ (show v < 65536 by omega), if_pos hv]

lemma parseStrBody_escChar (c : Char) (rest : List Char) :
    parseStrBody (escChar c ++ rest) = consO c (parseStrBody rest) := by
  by_cases h1 : c = '\\'
  · subst h1
    have he : escChar '\\' = ['\\', '\\'] := by decide
    rw [he]
    simp only [List.cons_append, List.singleton_append, List.nil_append, parseStrBody, parseEsc,
      eq_false backslash_ne_quote, if_false, eq_self_iff_true, if_true]
  · by_cases h2 : c = '"'
    · subst h2
      have he : escChar '"' = ['\\', '"'] := by decide
      rw [he]
      simp only [List.cons_append, List.singleton_append, List.nil_append, parseStrBody, parseEsc,
        eq_false backslash_ne_quote, if_false, eq_self_iff_true, if_true]
    · by_cases h3 : c.toNat = 8
      · have he : escChar c = ['\\', 'b'] := by
          unfold escChar
          rw [if_neg h1, if_neg h2, if_pos h3]
        have hc : Char.ofNat 8 = c := by rw [← h3, Char.ofNat_toNat]
        rw [he]
        simp only [List.cons_append, List.singleton_append, List.nil_append, parseStrBody, parseEsc,
          eq_false backslash_ne_quote, if_false, eq_self_iff_true, if_true, hc]
      · by_cases h4 : c.toNat = 9
        · have he : escChar c = ['\\', 't'] := by
            unfold escChar
            rw [if_neg h1, if_neg h2, if_neg h3, if_pos h4]
          have hc : Char.ofNat 9 = c := by rw [← h4, Char.ofNat_toNat]
          have ht : ('\t' : Char) = c := by rw [← hc]
          rw [he]
          simp only [List.cons_append, List.singleton_append, List.nil_append, parseStrBody, parseEsc,
            eq_false backslash_ne_quote, if_false, eq_self_iff_true, if_true, ht]
        · by_cases h5 : c.toNat = 10
          · have he : escChar c = ['\\', 'n'] := by
              unfold escChar
              rw [if_neg h1, if_neg h2, if_neg h3, if_neg h4, if_pos h5]
            have hc : Char.ofNat 10 = c := by rw [← h5, Char.ofNat_toNat]
            have ht : ('\n' : Char) = c := by rw [← hc]
            rw [he]
            simp only [List.cons_append, List.singleton_append, List.nil_append, parseStrBody, parseEsc,
              eq_false backslash_ne_quote, if_false, eq_self_iff_true, if_true, ht]
          · by_cases h6 : c.toNat = 12
            · have he : escChar c = ['\\', 'f'] := by
                unfold escChar
                rw [if_neg h1, if_neg h2, if_neg h3, if_neg h4, if_neg h5, if_pos h6]
              have hc : Char.ofNat 12 = c := by rw [← h6, Char.ofNat_toNat]
              rw [he]
              simp only [List.cons_append, List.singleton_append, List.nil_append, parseStrBody, parseEsc,
                eq_false backslash_ne_quote, if_false, eq_self_iff_true, if_true, hc]
            · by_cases h7 : c.toNat = 13
              · have he : escChar c = ['\\', 'r'] := by
                  unfold escChar
                  rw [if_neg h1, if_neg h2, if_neg h3, if_neg h4, if_neg h5, if_neg h6,
                    if_pos h7]
                have hc : Char.ofNat 13 = c := by rw [← h7, Char.ofNat_toNat]
                rw [he]
                simp only [List.cons_append, List.singleton_append, List.nil_append, parseStrBody, parseEsc,
                  eq_false backslash_ne_quote, if_false, eq_self_iff_true, if_true, hc]
              · by_cases h8 : 32 ≤ c.toNat ∧ c.toNat ≤ 126
                · have he : escChar c = [c] := by
                    unfold escChar
                    rw [if_neg h1, if_neg h2, if_neg h3, if_neg h4, if_neg h5, if_neg h6,
                      if_neg h7, if_pos h8]
                  rw [he]
                  simp only [List.singleton_append, parseStrBody,
                    eq_false h2, eq_false h1, if_false]
                · have hval := char_toNat_valid c
                  by_cases h9 : c.toNat < 65536
                  · have he : escChar c = uEsc c.toNat := by
                      unfold escChar
                      rw [if_neg h1, if_neg h2, if_neg h3, if_neg h4, if_neg h5, if_neg h6,
                        if_neg h7, if_neg h8, if_pos h9]
                    rw [he]
                    simp only [uEsc, List.cons_append, List.nil_append, parseStrBody,
                      parseEsc, eq_false backslash_ne_quote, if_false, eq_self_iff_true,
                      if_true, decodeHex4_uEsc_digits _ h9,
                      if_neg (show ¬(55296 ≤ c.toNat ∧ c.toNat < 56320) from by omega),
                      if_neg (show ¬(56320 ≤ c.toNat ∧ c.toNat < 57344) from by omega),
                      Char.ofNat_toNat]
                  · have he : escChar c = uEsc (55296 + (c.toNat - 65536) / 1024) ++
                        uEsc (56320 + (c.toNat - 65536) % 1024) := by
                      unfold escChar
                      rw [if_neg h1, if_neg h2, if_neg h3, if_neg h4, if_neg h5, if_neg h6,
                        if_neg h7, if_neg h8, if_neg h9]
                    rw [he]
                    have hq : (c.toNat - 65536) / 1024 < 1024 := by omega
                    rw [List.append_assoc]
                    conv_lhs =>
                      rw [show uEsc (55296 + (c.toNat - 65536) / 1024) =
                        '\\' :: 'u' ::
                          hexDigitChar ((55296 + (c.toNat - 65536) / 1024) / 4096 % 16) ::
                          hexDigitChar ((55296 + (c.toNat - 65536) / 1024) / 256 % 16) ::
                          hexDigitChar ((55296 + (c.toNat - 65536) / 1024) / 16 % 16) ::
                          [hexDigitChar ((55296 + (c.toNat - 65536) / 1024) % 16)] from rfl]
                    simp only [List.cons_append, List.singleton_append, parseStrBody,
                      parseEsc, eq_false backslash_ne_quote, if_false, eq_self_iff_true,
                      if_true, decodeHex4_uEsc_digits _ (show 55296 +
                        (c.toNat - 65536) / 1024 < 65536 by omega),
                      if_pos (show 55296 ≤ 55296 + (c.toNat - 65536) / 1024 ∧
                        55296 + (c.toNat - 65536) / 1024 < 56320 by omega)]
                    have hlow := parseLowSurrogate_uEsc (55296 + (c.toNat - 65536) / 1024)
                      (56320 + (c.toNat - 65536) % 1024) rest
                      (show 56320 ≤ 56320 + (c.toNat - 65536) % 1024 ∧
                        56320 + (c.toNat - 65536) % 1024 < 57344 by omega)
                    split
                    · rename_i ch2 cs2 hsur
                      rw [List.nil_append, hlow] at hsur
                      injection hsur with hpair
                      have e1 := congrArg Prod.fst hpair
                      have e2 := congrArg Prod.snd hpair
                      simp only at e1 e2
                      rw [← e1, ← e2]
                      rw [show 65536 + (55296 + (c.toNat - 65536) / 1024 - 55296) * 1024 +
                        (56320 + (c.toNat - 65536) % 1024 - 56320) = c.toNat from by omega]
                      rw [Char.ofNat_toNat]
                    · rename_i hsur
                      rw [List.nil_append, hlow] at hsur
                      exact absurd hsur (by simp)

lemma parseStrBody_escBody (l : List Char) (tail : List Char) :
    parseStrBody (l.flatMap escChar ++ '"' :: tail) = some (l, tail) := by
  induction l with
  | nil =>
    simp only [List.flatMap_nil, List.nil_append]
    simp only [parseStrBody, eq_self_iff_true, if_true]
  | cons c l ih =>
    simp only [List.flatMap_cons, List.append_assoc]
    rw [parseStrBody_escChar, ih]
    rfl

lemma toNat_digitChar (d : Nat) (h : d < 10) : (digitChar d).toNat = 48 + d := by
  unfold digitChar
  exact toNat_ofNat_valid _ (Or.inl (by omega))

lemma char_ne_of_range (c : Char) (lo hi : Nat) (hr : lo ≤ c.toNat ∧ c.toNat ≤ hi)
    (c2 : Char) (h2 : c2.toNat < lo ∨ hi < c2.toNat) : c ≠ c2 := by
  intro he
  subst he
  omega

lemma digitChar_range (d : Nat) (h : d < 10) :
    48 ≤ (digitChar d).toNat ∧ (digitChar d).toNat ≤ 57 := by
  rw [toNat_digitChar d h]
  omega

lemma isJsonWs_eq_false_of_range (c : Char) (hr : 48 ≤ c.toNat ∧ c.toNat ≤ 57) :
    isJsonWs c = false := by
  simp only [isJsonWs, Bool.or_eq_false_iff, decide_eq_false_iff_not]
  exact ⟨⟨⟨char_ne_of_range c 48 57 hr ' ' (by decide),
    char_ne_of_range c 48 57 hr '\t' (by decide)⟩,
    char_ne_of_range c 48 57 hr '\n' (by decide)⟩,
    char_ne_of_range c 48 57 hr (Char.ofNat 13) (by decide)⟩

lemma isDigitCh_digitChar (d : Nat) (h : d < 10) : isDigitCh (digitChar d) = true := by
  simp only [isDigitCh, toNat_digitChar d h, Bool.and_eq_true, decide_eq_true_eq]
  omega

lemma natDigs_head (n : Nat) : ∃ d l, natDigs n = digitChar d :: l ∧ d < 10 := by
  induction n using Nat.strong_induction_on with
  | _ n ih =>
    by_cases h : n < 10
    · exact ⟨n, [], by rw [natDigs, if_pos h], h⟩
    · obtain ⟨d, l, hd, hlt⟩ := ih (n / 10) (Nat.div_lt_self (by omega) (by omega))
      exact ⟨d, l ++ [digitChar (n % 10)], by rw [natDigs, if_neg h, hd]; rfl, hlt⟩

lemma natDigs_all_digits (n : Nat) : ∀ c ∈ natDigs n, isDigitCh c = true := by
  induction n using Nat.strong_induction_on with
  | _ n ih =>
    intro c hc
    by_cases h : n < 10
    · rw [natDigs, if_pos h] at hc
      simp only [List.mem_singleton] at hc
      subst hc
      exact isDigitCh_digitChar n h
    · rw [natDigs, if_neg h] at hc
      rcases List.mem_append.mp hc with h1 | h1
      · exact ih (n / 10) (Nat.div_lt_self (by omega) (by omega)) c h1
      · simp only [List.mem_singleton] at h1
        subst h1
        exact isDigitCh_digitChar (n % 10) (Nat.mod_lt _ (by omega))

lemma digitsVal_append_one (ds : List Char) (c : Char) :
    digitsVal (ds ++ [c]) = digitsVal ds * 10 + (c.toNat - 48) := by
  unfold digitsVal
  rw [List.foldl_append]
  simp only [List.foldl_cons, List.foldl_nil]

lemma digitsVal_natDigs (n : Nat) : digitsVal (natDigs n) = n := by
  induction n using Nat.strong_induction_on with
  | _ n ih =>
    by_cases h : n < 10
    · rw [natDigs, if_pos h]
      unfold digitsVal
      simp only [List.foldl_cons, List.foldl_nil, toNat_digitChar n h]
      omega
    · rw [natDigs, if_neg h, digitsVal_append_one,
        ih (n / 10) (Nat.div_lt_self (by omega) (by omega)),
        toNat_digitChar (n % 10) (Nat.mod_lt _ (by omega))]
      omega

lemma natDigs_ne_nil (n : Nat) : natDigs n ≠ [] := by
  obtain ⟨d, l, hd, _⟩ := natDigs_head n
  rw [hd]
  simp

/-- The next character is not a digit (so maximal-munch number parsing stops). -/
def nonDigitHead : List Char → Bool
  | [] => true
  | c :: _ => !isDigitCh c

lemma takeWhile_all_append (p : Char → Bool) (l rest : List Char)
    (hl : ∀ c ∈ l, p c = true) (hr : ∀ c cs, rest = c :: cs → p c = false) :
    (l ++ rest).takeWhile p = l ∧ (l ++ rest).dropWhile p = rest := by
  induction l with
  | nil =>
    cases rest with
    | nil => simp
    | cons c cs =>
      have := hr c cs rfl
      simp [List.takeWhile_cons, List.dropWhile_cons, this]
  | cons a l ih =>
    have ha := hl a (List.mem_cons_self _ _)
    have hl' : ∀ c ∈ l, p c = true := fun c hc => hl c (List.mem_cons_of_mem _ hc)
    obtain ⟨ht, hd⟩ := ih hl'
    simp [List.takeWhile_cons, List.dropWhile_cons, ha, ht, hd]

lemma parseNat_natDigs (m : Nat) (rest : List Char) (hr : nonDigitHead rest = true) :
    parseNat (natDigs m ++ rest) = some (m, rest) := by
  have hrf : ∀ c cs, rest = c :: cs → isDigitCh c = false := by
    intro c cs heq
    rw [heq] at hr
    simpa [nonDigitHead] using hr
  obtain ⟨ht, hd⟩ := takeWhile_all_append isDigitCh (natDigs m) rest
    (natDigs_all_digits m) hrf
  have hne : (natDigs m).isEmpty = false := by
    cases hh : natDigs m with
    | nil => exact absurd hh (natDigs_ne_nil m)
    | cons a l => rfl
  simp only [parseNat, ht, hd, hne, digitsVal_natDigs, if_false, Bool.false_eq_true]

lemma parseVal_ws (f : Nat) (cs : List Char) : parseVal f (' ' :: cs) = parseVal f cs := by
  cases f with
  | zero => rfl
  | succ f => simp only [parseVal, show skipWs (' ' :: cs) = skipWs cs from rfl]

lemma parseElems_ws (f : Nat) (cs : List Char) :
    parseElems f (' ' :: cs) = parseElems f cs := by
  cases f with
  | zero => rfl
  | succ f => simp only [parseElems, parseVal_ws]

lemma parseMembers_ws (f : Nat) (cs : List Char) :
    parseMembers f (' ' :: cs) = parseMembers f cs := by
  cases f with
  | zero => rfl
  | succ f => simp only [parseMembers, show skipWs (' ' :: cs) = skipWs cs from rfl]

lemma dumpElems_eq_append (x : PyJson) (xs : List PyJson) :
    ∃ r, dumpElems x xs = dumpJson x ++ r := by
  cases xs with
  | nil => exact ⟨[], by rw [dumpElems]; simp⟩
  | cons y xs => exact ⟨',' :: ' ' :: dumpElems y xs, by rw [dumpElems]⟩

lemma dump_head (j : PyJson) :
    ∃ c l, dumpJson j = c :: l ∧ isJsonWs c = false ∧ c ≠ ']' ∧ c ≠ '}' := by
  cases j with
  | null => exact ⟨'n', ['u', 'l', 'l'], by rw [dumpJson], by decide, by decide, by decide⟩
  | bool b =>
    cases b with
    | true => exact ⟨'t', ['r', 'u', 'e'], by rw [dumpJson], by decide, by decide, by decide⟩
    | false =>
      exact ⟨'f', ['a', 'l', 's', 'e'], by rw [dumpJson], by decide, by decide, by decide⟩
  | int n =>
    by_cases h : n < 0
    · refine ⟨'-', natDigs n.natAbs, ?_, by decide, by decide, by decide⟩
      rw [dumpJson]
      unfold dumpInt
      rw [if_pos h]
    · obtain ⟨d, l, hd, hlt⟩ := natDigs_head n.natAbs
      have hr := digitChar_range d hlt
      refine ⟨digitChar d, l, ?_, isJsonWs_eq_false_of_range _ hr,
        char_ne_of_range _ 48 57 hr ']' (by decide),
        char_ne_of_range _ 48 57 hr '}' (by decide)⟩
      rw [dumpJson]
      unfold dumpInt
      rw [if_neg h, hd]
  | str s =>
    exact ⟨'"', escStr s ++ ['"'], by rw [dumpJson]; rfl, by decide, by decide, by decide⟩
  | arr xs =>
    cases xs with
    | nil => exact ⟨'[', [']'], by rw [dumpJson], by decide, by decide, by decide⟩
    | cons x xs =>
      exact ⟨'[', dumpElems x xs ++ [']'], by rw [dumpJson], by decide, by decide, by decide⟩
  | obj fs =>
    cases fs with
    | nil => exact ⟨'{', ['}'], by rw [dumpJson], by decide, by decide, by decide⟩
    | cons kv kvs =>
      exact ⟨'{', dumpMembers kv kvs ++ ['}'], by rw [dumpJson], by decide, by decide,
        by decide⟩

lemma dumpJson_length_pos (j : PyJson) : 0 < (dumpJson j).length := by
  obtain ⟨c, l, hd, _, _, _⟩ := dump_head j
  rw [hd]
  simp

lemma dumpMembers_head (kv : String × PyJson) (kvs : List (String × PyJson)) :
    ∃ r, dumpMembers kv kvs = '"' :: r := by
  obtain ⟨k, v⟩ := kv
  cases kvs with
  | nil =>
    refine ⟨escStr k ++ ['"'] ++ (':' :: ' ' :: dumpJson v), ?_⟩
    rw [dumpMembers, dumpMember]
    unfold dumpStrC
    simp
  | cons kv2 kvs =>
    refine ⟨escStr k ++ ['"'] ++ (':' :: ' ' :: dumpJson v) ++
      (',' :: ' ' :: dumpMembers kv2 kvs), ?_⟩
    rw [dumpMembers, dumpMember]
    unfold dumpStrC
    simp

lemma parse_dump_fuel (fuel : Nat) :
    (∀ (j : PyJson) (tail : List Char), (dumpJson j).length ≤ fuel →
      nonDigitHead tail = true →
      parseVal fuel (dumpJson j ++ tail) = some (j, tail)) ∧
    (∀ (x : PyJson) (xs : List PyJson) (tail : List Char),
      (dumpElems x xs).length + 1 ≤ fuel →
      parseElems fuel (dumpElems x xs ++ (']' :: tail)) = some (x :: xs, tail)) ∧
    (∀ (kv : String × PyJson) (kvs : List (String × PyJson)) (tail : List Char),
      (dumpMembers kv kvs).length + 1 ≤ fuel →
      parseMembers fuel (dumpMembers kv kvs ++ ('}' :: tail)) = some (kv :: kvs, tail)) := by
  induction fuel using Nat.strong_induction_on with
  | _ fuel ih =>
    cases fuel with
    | zero =>
      refine ⟨?_, ?_, ?_⟩
      · intro j tail hf _
        have := dumpJson_length_pos j
        omega
      · intro x xs tail hf
        omega
      · intro kv kvs tail hf
        omega
    | succ f =>
      obtain ⟨ihV, ihE, ihM⟩ := ih f (Nat.lt_succ_self f)
      refine ⟨?_, ?_, ?_⟩
      · intro j tail hf htail
        cases j with
        | null =>
          rw [show dumpJson PyJson.null = ['n', 'u', 'l', 'l'] from by rw [dumpJson]]
          simp [parseVal, skipWs, dropLit, isJsonWs, isDigitCh]
        | bool b =>
          cases b with
          | true =>
            rw [show dumpJson (PyJson.bool true) = ['t', 'r', 'u', 'e'] from by
              rw [dumpJson]]
            simp [parseVal, skipWs, dropLit, isJsonWs, isDigitCh]
          | false =>
            rw [show dumpJson (PyJson.bool false) = ['f', 'a', 'l', 's', 'e'] from by
              rw [dumpJson]]
            simp [parseVal, skipWs, dropLit, isJsonWs, isDigitCh]
        | int n =>
          by_cases hneg : n < 0
          · have hrw : dumpJson (PyJson.int n) = '-' :: natDigs n.natAbs := by
              rw [dumpJson]
              unfold dumpInt
              rw [if_pos hneg]
            have hm : -((n.natAbs : Int)) = n := by omega
            have hm2 : -|n| = n := by rw [abs_of_neg hneg]; ring
            rw [hrw, List.cons_append]
            simp [parseVal, skipWs, isJsonWs, isDigitCh, parseNat_natDigs n.natAbs tail htail, hm, hm2]
          · obtain ⟨d, l', hdig, hd10⟩ := natDigs_head n.natAbs
            have hr := digitChar_range d hd10
            have hws := isJsonWs_eq_false_of_range _ hr
            have hne1 := char_ne_of_range _ 48 57 hr '"' (by decide)
            have hne2 := char_ne_of_range _ 48 57 hr '[' (by decide)
            have hne3 := char_ne_of_range _ 48 57 hr '{' (by decide)
            have hne4 := char_ne_of_range _ 48 57 hr '-' (by decide)
            have hdg := isDigitCh_digitChar d hd10
            have hrw : dumpJson (PyJson.int n) = natDigs n.natAbs := by
              rw [dumpJson]
              unfold dumpInt
              rw [if_neg hneg]
            have hm : ((n.natAbs : Int)) = n := by omega
            rw [hrw, hdig, List.cons_append]
            simp only [parseVal, skipWs_not_ws _ _ hws, eq_false hne1, eq_false hne2,
              eq_false hne3, eq_false hne4, if_false, hdg, if_true]
            rw [show digitChar d :: (l' ++ tail) = natDigs n.natAbs ++ tail from by
              rw [hdig, List.cons_append]]
            rw [parseNat_natDigs _ _ htail]
            simp only [hm]
        | str s =>
          have hrw : dumpJson (PyJson.str s) ++ tail =
              '"' :: (escStr s ++ ('"' :: tail)) := by
            rw [dumpJson]
            unfold dumpStrC
            simp
          rw [hrw]
          simp only [parseVal,
            show skipWs ('"' :: (escStr s ++ ('"' :: tail))) =
              '"' :: (escStr s ++ ('"' :: tail)) from rfl,
            eq_self_iff_true, if_true]
          rw [show escStr s = s.data.flatMap escChar from rfl, parseStrBody_escBody]
        | arr xs =>
          cases xs with
          | nil =>
            rw [show dumpJson (PyJson.arr []) = ['[', ']'] from by rw [dumpJson]]
            simp [parseVal, skipWs, headIs, isJsonWs, isDigitCh]
          | cons x xs =>
            obtain ⟨r, hre⟩ := dumpElems_eq_append x xs
            obtain ⟨c0, l0, hd0, hws0, hne0, _⟩ := dump_head x
            have hlen2 : (dumpElems x xs).length + 1 ≤ f := by
              rw [show dumpJson (PyJson.arr (x :: xs)) =
                '[' :: (dumpElems x xs ++ [']']) from by rw [dumpJson]] at hf
              simp only [List.length_cons, List.length_append,
                List.length_singleton] at hf
              omega
            have hrw : dumpJson (PyJson.arr (x :: xs)) ++ tail =
                '[' :: (dumpElems x xs ++ (']' :: tail)) := by
              rw [dumpJson]
              simp
            have hskip : skipWs (dumpElems x xs ++ (']' :: tail)) =
                dumpElems x xs ++ (']' :: tail) := by
              conv_lhs => rw [hre, hd0, List.append_assoc, List.cons_append]
              rw [skipWs_not_ws _ _ hws0]
              rw [hre, hd0, List.append_assoc, List.cons_append]
            have hhead : headIs (dumpElems x xs ++ (']' :: tail)) ']' = false := by
              rw [hre, hd0, List.append_assoc, List.cons_append]
              simp [headIs, hne0]
            rw [hrw]
            simp [parseVal, skipWs, isJsonWs, isDigitCh, hskip, hhead, ihE x xs tail hlen2]
        | obj fs =>
          cases fs with
          | nil =>
            rw [show dumpJson (PyJson.obj []) = ['{', '}'] from by rw [dumpJson]]
            simp [parseVal, skipWs, headIs, isJsonWs, isDigitCh]
          | cons kv kvs =>
            obtain ⟨r0, hm0⟩ := dumpMembers_head kv kvs
            have hlen2 : (dumpMembers kv kvs).length + 1 ≤ f := by
              rw [show dumpJson (PyJson.obj (kv :: kvs)) =
                '{' :: (dumpMembers kv kvs ++ ['}']) from by rw [dumpJson]] at hf
              simp only [List.length_cons, List.length_append,
                List.length_singleton] at hf
              omega
            have hrw : dumpJson (PyJson.obj (kv :: kvs)) ++ tail =
                '{' :: (dumpMembers kv kvs ++ ('}' :: tail)) := by
              rw [dumpJson]
              simp
            have hskip : skipWs (dumpMembers kv kvs ++ ('}' :: tail)) =
                dumpMembers kv kvs ++ ('}' :: tail) := by
              conv_lhs => rw [hm0, List.cons_append]
              rw [skipWs_not_ws _ _ (by decide)]
              rw [hm0, List.cons_append]
            have hhead : headIs (dumpMembers kv kvs ++ ('}' :: tail)) '}' = false := by
              rw [hm0, List.cons_append]
              simp [headIs]
            rw [hrw]
            simp [parseVal, skipWs, isJsonWs, isDigitCh, hskip, hhead, ihM kv kvs tail hlen2]
      · intro x xs tail hlen
        cases xs with
        | nil =>
          have hde : dumpElems x [] = dumpJson x := by rw [dumpElems]
          rw [hde] at hlen ⊢
          simp only [parseElems]
          rw [ihV x (']' :: tail) (by omega) rfl]
          simp [skipWs, headIs, isJsonWs]
        | cons y xs =>
          have hde : dumpElems x (y :: xs) = dumpJson x ++ (',' :: ' ' :: dumpElems y xs) := by
            rw [dumpElems]
          rw [hde] at hlen ⊢
          have hassoc : (dumpJson x ++ (',' :: ' ' :: dumpElems y xs)) ++ (']' :: tail) =
              dumpJson x ++ (',' :: ' ' :: (dumpElems y xs ++ (']' :: tail))) := by
            simp
          rw [hassoc]
          simp only [List.length_append, List.length_cons] at hlen
          simp only [parseElems]
          rw [ihV x (',' :: ' ' :: (dumpElems y xs ++ (']' :: tail))) (by omega) rfl]
          simp [skipWs, headIs, isJsonWs, parseElems_ws, ihE y xs tail (by omega)]
      · intro kv kvs tail hlen
        obtain ⟨k, v⟩ := kv
        cases kvs with
        | nil =>
          have hdm : dumpMembers (k, v) [] ++ ('}' :: tail) =
              '"' :: (escStr k ++ ('"' :: (':' :: (' ' ::
                (dumpJson v ++ ('}' :: tail)))))) := by
            rw [dumpMembers, dumpMember]
            unfold dumpStrC
            simp
          have hlenv : (dumpJson v).length ≤ f := by
            rw [dumpMembers, dumpMember] at hlen
            unfold dumpStrC at hlen
            simp only [List.length_append, List.length_cons, List.length_singleton] at hlen
            omega
          rw [hdm]
          simp only [parseMembers,
            show skipWs ('"' :: (escStr k ++ ('"' :: (':' :: (' ' ::
              (dumpJson v ++ ('}' :: tail))))))) =
              '"' :: (escStr k ++ ('"' :: (':' :: (' ' ::
                (dumpJson v ++ ('}' :: tail)))))) from rfl,
            eq_self_iff_true, if_true]
          rw [show escStr k = k.data.flatMap escChar from rfl, parseStrBody_escBody]
          simp [skipWs, headIs, isJsonWs, parseVal_ws, ihV v ('}' :: tail) hlenv rfl]
        | cons kv2 kvs =>
          have hdm : dumpMembers (k, v) (kv2 :: kvs) ++ ('}' :: tail) =
              '"' :: (escStr k ++ ('"' :: (':' :: (' ' ::
                (dumpJson v ++ (',' :: (' ' ::
                  (dumpMembers kv2 kvs ++ ('}' :: tail))))))))) := by
            rw [dumpMembers, dumpMember]
            unfold dumpStrC
            simp
          have hlens : (dumpJson v).length ≤ f ∧ (dumpMembers kv2 kvs).length + 1 ≤ f := by
            rw [dumpMembers, dumpMember] at hlen
            unfold dumpStrC at hlen
            simp only [List.length_append, List.length_cons, List.length_singleton] at hlen
            omega
          rw [hdm]
          simp only [parseMembers,
            show skipWs ('"' :: (escStr k ++ ('"' :: (':' :: (' ' ::
              (dumpJson v ++ (',' :: (' ' ::
                (dumpMembers kv2 kvs ++ ('}' :: tail)))))))))) =
              '"' :: (escStr k ++ ('"' :: (':' :: (' ' ::
                (dumpJson v ++ (',' :: (' ' ::
                  (dumpMembers kv2 kvs ++ ('}' :: tail))))))))) from rfl,
            eq_self_iff_true, if_true]
          rw [show escStr k = k.data.flatMap escChar from rfl, parseStrBody_escBody]
          simp [skipWs, headIs, isJsonWs, parseVal_ws, parseMembers_ws,
            ihV v (',' :: (' ' :: (dumpMembers kv2 kvs ++ ('}' :: tail)))) hlens.1 rfl,
            ihM kv2 kvs tail hlens.2]

/-- The serializer/parser pair round-trips every JSON value. -/
lemma json_loads_dumps (j : PyJson) : json_loads (json_dumps j) = some j := by
  unfold json_loads json_dumps
  have h1 : (String.mk (dumpJson j)).data = dumpJson j := rfl
  have h2 : (String.mk (dumpJson j)).length = (dumpJson j).length := rfl
  rw [h1, h2]
  have hp := (parse_dump_fuel (2 * (dumpJson j).length + 2)).1 j [] (by omega) rfl
  rw [List.append_nil] at hp
  rw [hp]
  simp [skipWs]

/-- `true` when a list of string keys has no duplicates (the invariant every
Python `dict` guarantees for the objects serialized by `json.dumps`). -/
def nodupKeys : List String → Bool
  | [] => true
  | k :: rest => (!rest.contains k) && nodupKeys rest

mutual

/-- A JSON value lies in the image of Python data: every object (at any
depth) has pairwise-distinct keys, as Python dicts do. On this domain the
embedded `json_loads`, which keeps duplicate members, agrees with Python
`json.loads`, which would collapse them. -/
def keysOk : PyJson → Bool
  | PyJson.null => true
  | PyJson.bool _ => true
  | PyJson.int _ => true
  | PyJson.str _ => true
  | PyJson.arr xs => keysOkElems xs
  | PyJson.obj fs => nodupKeys (fs.map Prod.fst) && keysOkMembers fs
termination_by j => sizeOf j
decreasing_by all_goals (simp_wf <;> omega)

def keysOkElems : List PyJson → Bool
  | [] => true
  | x :: xs => keysOk x && keysOkElems xs
termination_by xs => sizeOf xs
decreasing_by all_goals (simp_wf <;> omega)

def keysOkMembers : List (String × PyJson) → Bool
  | [] => true
  | (_, v) :: kvs => keysOk v && keysOkMembers kvs
termination_by kvs => sizeOf kvs
decreasing_by all_goals (simp_wf <;> omega)

end

/-- The `{action, text, coordinates}` view of one recorded action dict
(agent.py lines 726-735 record exactly these keys, plus `key`/`reasoning`). -/
def actionProj (j : PyJson) : Option PyJson × Option PyJson × Option PyJson :=
  (jGet j "action", jGet j "text", jGet j "coordinates")

/-- C9: serializing an action list into a ConversationHistory entry
(`add_to_history` stores `json.dumps(actions)` in the entry's second slot)
and re-parsing that entry with `json.loads` yields the same ordered list of
actions, and in particular the same `{action, text, coordinates}` tuple for
each action. The hypothesis restricts to the Python-dict domain: every
object in the list has duplicate-free keys, which `json.dumps` input coming
from Python dicts always satisfies. -/
theorem C9_actions_roundtrip (userInstruction finalResult : String)
    (actions : List PyJson) (h : keysOkElems actions = true) :
    ∃ parsed : List PyJson,
      json_loads (mkEntry userInstruction actions finalResult).actionsJson
        = some (PyJson.arr parsed) ∧
      parsed = actions ∧
      parsed.map actionProj = actions.map actionProj := by
  refine ⟨actions, ?_, rfl, rfl⟩
  exact json_loads_dumps (PyJson.arr actions)

/-- A concrete recorded action list: a click with coordinates and a done
action, with the key shapes produced by agent.py lines 726-735. -/
def c9Actions : List PyJson :=
  [PyJson.obj [("action", PyJson.str "click"),
               ("text", PyJson.null),
               ("coordinates", PyJson.arr [PyJson.int 100, PyJson.int 250])],
   PyJson.obj [("action", PyJson.str "done"),
               ("text", PyJson.str "ok"),
               ("coordinates", PyJson.null)]]

/-- Witness for C9 at a concrete two-action list. -/
theorem C9_actions_roundtrip_witness :
    keysOkElems c9Actions = true ∧
    ∃ parsed : List PyJson,
      json_loads (mkEntry "find the price" c9Actions "ok").actionsJson
        = some (PyJson.arr parsed) ∧
      parsed = c9Actions ∧
      parsed.map actionProj = c9Actions.map actionProj := by
  have h : keysOkElems c9Actions = true := by
    simp [c9Actions, keysOkElems, keysOk, keysOkMembers, nodupKeys, List.contains]
  exact ⟨h, C9_actions_roundtrip "find the price" "ok" c9Actions h⟩

end OpenClow
